import Mathlib

/-!
Verification development for the runBooks analysis subsystem.

The definitions below are a shallow embedding of the two analysis modules of
the repository:

* `scripts/suggest_updates.py` — text canonicalization (`normalize_text`,
  `extract_canonical_causes`, `extract_canonical_fixes`), annotation frequency
  aggregation (`analyze_runbook_annotations`) and the suggestion generator
  (`suggest_runbook_updates`);
* `scripts/diagnostics.py` / `scripts/diagnostics_compare.py` — the content
  hasher (`generate_result_hash`, i.e. `json.dumps(·, sort_keys=True,
  default=str)` followed by SHA-256) and the diagnostic record comparator
  (`find_similar_diagnostics`, `compare_diagnostics`).

Python dictionaries are modelled as association lists in insertion order;
Python `None` and JSON `null` are one value (`JVal.null`), exactly as in
CPython where a JSON null is loaded as `None`.  The YAML-file plumbing of the
scripts is outside the embedding: each embedded function takes the loaded
records directly, mirroring the body of its Python counterpart after the
`yaml.safe_load` call.  `str.lower` / `str.strip` are modelled on the ASCII
fragment exercised by the vocabulary (the pattern tables are pure ASCII).
-/

set_option linter.all false

/-! ### Text normalization (`normalize_text`) -/

/-- ASCII fragment of Python `str.lower`: map code points 65–90 to 97–122. -/
def lowerChar (c : Char) : Char :=
  if 65 ≤ c.toNat ∧ c.toNat ≤ 90 then Char.ofNat (c.toNat + 32) else c

/-- Python `str.lower` applied character-wise. -/
def pyLower (s : String) : String := ⟨s.data.map lowerChar⟩

/-- Whitespace test matching Python `str.strip` / regex `\s` on ASCII. -/
def isPySpace (c : Char) : Bool :=
  c = ' ' || c = '\t' || c = '\n' || c = '\x0d' || c = '\x0b' || c = '\x0c'

/-- Python `str.strip`: drop leading and trailing whitespace. -/
def pyStrip (s : String) : String :=
  ⟨((s.data.dropWhile isPySpace).reverse.dropWhile isPySpace).reverse⟩

/-- Embedding of `normalize_text`: `if not text: return ""` then
`text.lower().strip()`. -/
def normalize_text (text : String) : String :=
  if text = "" then "" else pyStrip (pyLower text)

/-! ### Regular expressions

A small regex AST covering exactly the constructs appearing in
`CANONICAL_PATTERNS`: literal runs, the `\s` class, `+`, `(?:·|·)`
alternation, `?`, and `.*?`.  `re.search` is used by the source only for its
truthiness, so greediness is irrelevant and matching is modelled as substring
match existence via Brzozowski derivatives. -/

inductive RE : Type where
  | eps : RE
  | void : RE
  | lit : Char → RE
  | cls : (Char → Bool) → RE
  | seq : RE → RE → RE
  | alt : RE → RE → RE
  | star : RE → RE

/-- Does the regex accept the empty string? -/
def RE.nullable : RE → Bool
  | .eps => true
  | .void => false
  | .lit _ => false
  | .cls _ => false
  | .seq a b => a.nullable && b.nullable
  | .alt a b => a.nullable || b.nullable
  | .star _ => true

/-- Smart sequencing constructor (keeps derivatives small). -/
def mkSeq : RE → RE → RE
  | .void, _ => .void
  | _, .void => .void
  | .eps, b => b
  | a, .eps => a
  | a, b => .seq a b

/-- Smart alternation constructor (keeps derivatives small). -/
def mkAlt : RE → RE → RE
  | .void, b => b
  | a, .void => a
  | a, b => .alt a b

/-- Brzozowski derivative of a regex by one character. -/
def RE.deriv : RE → Char → RE
  | .eps, _ => .void
  | .void, _ => .void
  | .lit c, x => if x = c then .eps else .void
  | .cls p, x => if p x then .eps else .void
  | .seq a b, x =>
    if a.nullable then mkAlt (mkSeq (a.deriv x) b) (b.deriv x)
    else mkSeq (a.deriv x) b
  | .alt a b, x => mkAlt (a.deriv x) (b.deriv x)
  | .star a, x => mkSeq (a.deriv x) (.star a)

/-- True when some prefix of the character list matches the regex. -/
def matchesPref : RE → List Char → Bool
  | r, [] => r.nullable
  | r, c :: cs => r.nullable || matchesPref (r.deriv c) cs

/-- Model of `re.search` truthiness: some substring of `s` matches `r`. -/
def reSearchL (r : RE) : List Char → Bool
  | [] => matchesPref r []
  | c :: cs => matchesPref r (c :: cs) || reSearchL r cs

/-- `re.search(pattern, text)` used as a boolean, on strings. -/
def reSearch (r : RE) (s : String) : Bool := reSearchL r s.data

/-- Literal regex for a string of characters. -/
def litStr (s : String) : RE := (s.data.map RE.lit).foldr mkSeq .eps

/-- Regex `\s+`. -/
def sp1 : RE := mkSeq (RE.cls isPySpace) (RE.star (RE.cls isPySpace))

/-- Regex `.` (any character but newline, no DOTALL flag in the source). -/
def dotRE : RE := RE.cls fun c => c ≠ '\n'

/-- Regex `.*?`; for match existence the lazy marker is irrelevant. -/
def dotStar : RE := RE.star dotRE

/-- Regex `r?`. -/
def opt (r : RE) : RE := mkAlt r .eps

/-- N-ary alternation `(?:a|b|...)`. -/
def alts : List RE → RE
  | [] => .void
  | [r] => r
  | r :: rs => mkAlt r (alts rs)

/-- N-ary sequencing. -/
def seqs : List RE → RE
  | [] => .eps
  | [r] => r
  | r :: rs => mkSeq r (seqs rs)

/-! ### The pattern tables (`CANONICAL_PATTERNS`)

Each entry transcribes one Python regex from the source, in source dict
(insertion) order, paired with its canonical tag. -/

/-- `CANONICAL_PATTERNS["causes"]`, in source order. -/
def causesPatterns : List (RE × String) :=
  [ (seqs [litStr "memory", sp1, litStr "leak"], "memory_leak"),
    (seqs [litStr "cpu", sp1, alts [litStr "usage", litStr "spike", litStr "high"]],
      "high_cpu_usage"),
    (seqs [litStr "disk", sp1, alts [litStr "space", litStr "full"]], "disk_space_issue"),
    (seqs [litStr "connection", sp1, alts [litStr "timeout", litStr "refused"]],
      "connection_timeout"),
    (seqs [litStr "out", sp1, litStr "of", sp1, alts [litStr "memory", litStr "disk"]],
      "resource_exhaustion"),
    (litStr "oomkilled", "oom_killed"),
    (seqs [litStr "network", sp1, alts [litStr "error", litStr "issue"]], "network_issue"),
    (seqs [litStr "config", opt (litStr "uration"), sp1, alts [litStr "error", litStr "issue"]],
      "configuration_error"),
    (seqs [litStr "dependency", sp1, alts [litStr "failure", litStr "down"]],
      "dependency_failure"),
    (seqs [litStr "rate", sp1, alts [litStr "limit", litStr "throttling"]], "rate_limiting") ]

/-- `CANONICAL_PATTERNS["fixes"]`, in source order. -/
def fixesPatterns : List (RE × String) :=
  [ (seqs [litStr "increase", opt (alts [litStr "s", litStr "d"]), sp1, dotStar,
      alts [litStr "memory", litStr "cpu", litStr "resource"]], "increase_resource_limits"),
    (seqs [litStr "restart", opt (alts [litStr "s", litStr "ed"]), sp1, dotStar,
      alts [litStr "pod", litStr "service", litStr "container"]], "restart_component"),
    (seqs [litStr "scale", opt (alts [litStr "s", litStr "d"]), sp1,
      alts [litStr "up", litStr "out"]], "scale_up_resources"),
    (seqs [litStr "rollback", opt (litStr "s")], "rollback_deployment"),
    (seqs [litStr "fix", opt (alts [litStr "es", litStr "ed"]), sp1,
      alts [litStr "config", litStr "configuration"]], "fix_configuration"),
    (seqs [litStr "update", opt (alts [litStr "s", litStr "d"]), sp1,
      alts [litStr "version", litStr "image"]], "update_component"),
    (seqs [litStr "add", opt (alts [litStr "s", litStr "ed"]), sp1,
      alts [litStr "timeout", litStr "retry"]], "add_timeout_retry"),
    (seqs [litStr "clear", opt (alts [litStr "s", litStr "ed"]), sp1,
      alts [litStr "cache", litStr "buffer"]], "clear_cache"),
    (seqs [litStr "kill", opt (alts [litStr "s", litStr "ed"]), sp1,
      alts [litStr "process", litStr "pod"]], "kill_process"),
    (seqs [litStr "add", opt (alts [litStr "s", litStr "ed"]), sp1,
      alts [litStr "monitoring", litStr "alert"]], "add_monitoring") ]

/-- Shared body of the two extractors: collect the tag of every table pattern
whose regex matches somewhere in the normalized text, in table order. -/
def extractMatches (table : List (RE × String)) (text : String) : List String :=
  (table.filter fun p => reSearch p.1 (normalize_text text)).map Prod.snd

/-- Embedding of `extract_canonical_causes`. -/
def extract_canonical_causes (text : String) : List String :=
  extractMatches causesPatterns text

/-- Embedding of `extract_canonical_fixes`. -/
def extract_canonical_fixes (text : String) : List String :=
  extractMatches fixesPatterns text

example : extract_canonical_causes "High CPU usage due to memory leak" =
    ["memory_leak", "high_cpu_usage"] := by decide

example : extract_canonical_fixes "Increase pod memory limits" =
    ["increase_resource_limits"] := by decide

/-! ### Counters (`collections.Counter` / `defaultdict(Counter)`)

Python dictionaries are modelled as association lists in insertion order.
`counterAdd` is `counter[k] += 1`: bump the existing entry in place, or append
a fresh entry with count 1. -/

/-- Association-list lookup on string keys (Python `d[k]` / `d.get(k)`). -/
def alookup {α : Type} : List (String × α) → String → Option α
  | [], _ => none
  | (k, v) :: rest, key => if k = key then some v else alookup rest key

/-- Python `Counter[k] += 1` on an insertion-ordered association list. -/
def counterAdd : List (String × Nat) → String → List (String × Nat)
  | [], key => [(key, 1)]
  | (k, v) :: rest, key =>
    if k = key then (k, v + 1) :: rest else (k, v) :: counterAdd rest key

/-- Count read with the `Counter` default of 0 for missing keys. -/
def counterGet (m : List (String × Nat)) (key : String) : Nat :=
  (alookup m key).getD 0

/-- Python `defaultdict(Counter)[c][f] += 1`. -/
def pairsAdd : List (String × List (String × Nat)) → String → String →
    List (String × List (String × Nat))
  | [], c, f => [(c, [(f, 1)])]
  | (k, inner) :: rest, c, f =>
    if k = c then (k, counterAdd inner f) :: rest else (k, inner) :: pairsAdd rest c f

/-- Nested pair-count read, 0 when either level is missing. -/
def pairsGet (m : List (String × List (String × Nat))) (c f : String) : Nat :=
  counterGet ((alookup m c).getD []) f

/-! ### Annotation records and the aggregator (`analyze_runbook_annotations`) -/

/-- The slice of an annotation record consumed by the aggregator: the
`cause` and `fix` fields, absent keys read as `''` via `.get(·, '')`. -/
structure AnnRecord where
  cause : Option String
  fix : Option String
deriving DecidableEq

/-- Result shape of `analyze_runbook_annotations`. -/
structure Analysis where
  cause_counts : List (String × Nat)
  fix_counts : List (String × Nat)
  cause_fix_pairs : List (String × List (String × Nat))
  total_incidents : Nat
deriving DecidableEq

/-- Loop body of `analyze_runbook_annotations` for one annotation: classify
`cause` and `fix`, bump each matched cause and fix tag, then bump every
(cause, fix) pair in the nested loop. -/
def annStep (st : List (String × Nat) × List (String × Nat) ×
    List (String × List (String × Nat))) (a : AnnRecord) :
    List (String × Nat) × List (String × Nat) × List (String × List (String × Nat)) :=
  let causes := extract_canonical_causes (a.cause.getD "")
  let fixes := extract_canonical_fixes (a.fix.getD "")
  let cc := causes.foldl counterAdd st.1
  let fc := fixes.foldl counterAdd st.2.1
  let pairs := causes.foldl (fun p c => fixes.foldl (fun q f => pairsAdd q c f) p) st.2.2
  (cc, fc, pairs)

/-- Embedding of `analyze_runbook_annotations`, taking the already-loaded
`annotations` list of the runbook. -/
def analyze_runbook_annotations (anns : List AnnRecord) : Analysis :=
  let st := anns.foldl annStep ([], [], [])
  ⟨st.1, st.2.1, st.2.2, anns.length⟩

/-! ### The suggestion generator (`suggest_runbook_updates`) -/

/-- One suggestion record `{'type', 'item', 'count', 'reason'}`. -/
structure Sug where
  type_ : String
  item : String
  count : Nat
  reason : String
deriving DecidableEq

/-- A single-quote character, used in the f-string reasons. -/
def sglq : String := (Char.ofNat 39).toString

/-- `add_step` suggestion for a frequent fix. -/
def mkStep (p : String × Nat) : Sug :=
  ⟨"add_step", p.1, p.2, sglq ++ p.1 ++ sglq ++ " applied in " ++ toString p.2 ++ " incidents"⟩

/-- `add_monitoring` suggestion for a frequent cause. -/
def mkMonitoring (p : String × Nat) : Sug :=
  ⟨"add_monitoring", p.1, p.2,
    sglq ++ p.1 ++ sglq ++ " identified as root cause in " ++ toString p.2 ++ " incidents"⟩

/-- `add_relationship` suggestion for a frequent (cause, fix) pair. -/
def mkRelationship (c : String) (p : String × Nat) : Sug :=
  ⟨"add_relationship", c ++ " -> " ++ p.1, p.2,
    sglq ++ c ++ sglq ++ " typically fixed with " ++ sglq ++ p.1 ++ sglq ++ " in " ++
      toString p.2 ++ " incidents"⟩

/-- Embedding of `suggest_runbook_updates` (annotations already loaded):
analyze, then emit fixes with `count >= min_frequency`, then causes, then
(cause, fix) pairs, each section in counter insertion order.  `min_frequency`
is a Python `int`, hence `Int`. -/
def suggest_runbook_updates (anns : List AnnRecord) (min_frequency : Int) : List Sug :=
  let analysis := analyze_runbook_annotations anns
  ((analysis.fix_counts.filter fun p => min_frequency ≤ (p.2 : Int)).map mkStep) ++
  ((analysis.cause_counts.filter fun p => min_frequency ≤ (p.2 : Int)).map mkMonitoring) ++
  (analysis.cause_fix_pairs.flatMap fun q =>
    (q.2.filter fun p => min_frequency ≤ (p.2 : Int)).map (mkRelationship q.1))

example :
    (analyze_runbook_annotations
      [⟨some "Memory leak in pod", some "increased memory limits"⟩,
       ⟨some "memory   leak", none⟩]).cause_counts = [("memory_leak", 2)] := by decide

/-! ### JSON-like values (`result_blob` payloads)

`JVal` models the Python values a `result_blob` can hold after YAML/JSON
loading: `None`, booleans, integers, strings, lists and (insertion-ordered)
dicts with string keys.  `opaq s` models any other Python object whose
`str()` form is `s` — the values `json.dumps` cannot serialize natively and
therefore routes through `default=str`. -/

inductive JVal : Type where
  | null : JVal
  | bool : Bool → JVal
  | num : Int → JVal
  | str : String → JVal
  | arr : List JVal → JVal
  | obj : List (String × JVal) → JVal
  | opaq : String → JVal

mutual

/-- Lean structural decidable equality on `JVal`, used only to compute in
statements and witnesses.  Python `==` (order-insensitive on dicts,
`True == 1`) is modelled separately by `pyEq` below. -/
def jvalBeq : JVal → JVal → Bool
  | .null, .null => true
  | .bool a, .bool b => a == b
  | .num a, .num b => a == b
  | .str a, .str b => a == b
  | .opaq a, .opaq b => a == b
  | .arr a, .arr b => jlistBeq a b
  | .obj a, .obj b => jentriesBeq a b
  | _, _ => false
termination_by structural a => a

def jlistBeq : List JVal → List JVal → Bool
  | [], [] => true
  | x :: xs, y :: ys => jvalBeq x y && jlistBeq xs ys
  | _, _ => false
termination_by structural a => a

def jentriesBeq : List (String × JVal) → List (String × JVal) → Bool
  | [], [] => true
  | (k, v) :: xs, (k2, v2) :: ys => k == k2 && jvalBeq v v2 && jentriesBeq xs ys
  | _, _ => false
termination_by structural a => a

end

mutual

theorem jvalBeq_iff : ∀ a b : JVal, jvalBeq a b = true ↔ a = b
  | .null, .null => by simp [jvalBeq]
  | .bool _, .bool _ => by simp [jvalBeq]
  | .num _, .num _ => by simp [jvalBeq]
  | .str _, .str _ => by simp [jvalBeq]
  | .opaq _, .opaq _ => by simp [jvalBeq]
  | .arr a, .arr b => by simp [jvalBeq, jlistBeq_iff a b]
  | .obj a, .obj b => by simp [jvalBeq, jentriesBeq_iff a b]
  | .null, .bool _ | .null, .num _ | .null, .str _ | .null, .opaq _ | .null, .arr _
  | .null, .obj _ => by simp [jvalBeq]
  | .bool _, .null | .bool _, .num _ | .bool _, .str _ | .bool _, .opaq _ | .bool _, .arr _
  | .bool _, .obj _ => by simp [jvalBeq]
  | .num _, .null | .num _, .bool _ | .num _, .str _ | .num _, .opaq _ | .num _, .arr _
  | .num _, .obj _ => by simp [jvalBeq]
  | .str _, .null | .str _, .bool _ | .str _, .num _ | .str _, .opaq _ | .str _, .arr _
  | .str _, .obj _ => by simp [jvalBeq]
  | .opaq _, .null | .opaq _, .bool _ | .opaq _, .num _ | .opaq _, .str _ | .opaq _, .arr _
  | .opaq _, .obj _ => by simp [jvalBeq]
  | .arr _, .null | .arr _, .bool _ | .arr _, .num _ | .arr _, .str _ | .arr _, .opaq _
  | .arr _, .obj _ => by simp [jvalBeq]
  | .obj _, .null | .obj _, .bool _ | .obj _, .num _ | .obj _, .str _ | .obj _, .opaq _
  | .obj _, .arr _ => by simp [jvalBeq]

theorem jlistBeq_iff : ∀ a b : List JVal, jlistBeq a b = true ↔ a = b
  | [], [] => by simp [jlistBeq]
  | [], _ :: _ => by simp [jlistBeq]
  | _ :: _, [] => by simp [jlistBeq]
  | x :: xs, y :: ys => by simp [jlistBeq, jvalBeq_iff x y, jlistBeq_iff xs ys]

theorem jentriesBeq_iff : ∀ a b : List (String × JVal), jentriesBeq a b = true ↔ a = b
  | [], [] => by simp [jentriesBeq]
  | [], _ :: _ => by simp [jentriesBeq]
  | _ :: _, [] => by simp [jentriesBeq]
  | (k, v) :: xs, (k2, v2) :: ys => by
    simp [jentriesBeq, jvalBeq_iff v v2, jentriesBeq_iff xs ys, and_assoc]

end

instance : DecidableEq JVal := fun a b => decidable_of_iff _ (jvalBeq_iff a b)

/-! ### Python `==` on loaded values (`pyEq`)

`result1[key] != result2[key]` in the comparator is Python `==`, which on
dicts ignores key insertion order (equal key sets with `==`-equal values)
and identifies `True` with `1` and `False` with `0` (`bool` is an `int`
subclass).  Lists compare element-wise in order.  For objects behind
`default=str` (`opaq`) the model compares their string forms. -/

/-- Does every key of `l2` occur in `l1`? (second half of dict `==`). -/
def keysSub (l2 l1 : List (String × JVal)) : Bool :=
  l2.all fun p => (alookup l1 p.1).isSome

/-- The integer a Python `bool` equals (`True == 1`, `False == 0`). -/
def boolInt (b : Bool) : Int := if b then 1 else 0

mutual

/-- Python `==` on modelled values. -/
def pyEq : JVal → JVal → Bool
  | .null, .null => true
  | .bool a, .bool b => a == b
  | .bool a, .num i => boolInt a == i
  | .num i, .bool b => i == boolInt b
  | .num a, .num b => a == b
  | .str a, .str b => a == b
  | .opaq a, .opaq b => a == b
  | .arr a, .arr b => pyListEq a b
  | .obj a, .obj b => pyObjSub a b && keysSub b a
  | _, _ => false
termination_by structural a => a

/-- Element-wise Python `==` on lists. -/
def pyListEq : List JVal → List JVal → Bool
  | [], [] => true
  | x :: xs, y :: ys => pyEq x y && pyListEq xs ys
  | _, _ => false
termination_by structural a => a

/-- Every entry of the first dict has a `pyEq`-equal value at its key in the
second (first half of dict `==`). -/
def pyObjSub : List (String × JVal) → List (String × JVal) → Bool
  | [], _ => true
  | (k, v) :: xs, l2 =>
    (match alookup l2 k with
     | some w => pyEq v w
     | none => false) && pyObjSub xs l2
termination_by structural a => a

end

/-! ### Well-formed payloads: duplicate-free dict keys at every depth

Values loaded from Python dicts can never repeat a key; theorems about the
comparator assume this shape. -/

/-- No string occurs twice. -/
def distinctKeys : List String → Bool
  | [] => true
  | k :: ks => (!ks.contains k) && distinctKeys ks

mutual

/-- Every dict inside the value has duplicate-free keys. -/
def wfJ : JVal → Bool
  | .null => true
  | .bool _ => true
  | .num _ => true
  | .str _ => true
  | .opaq _ => true
  | .arr l => wfList l
  | .obj l => distinctKeys (l.map Prod.fst) && wfEntries l
termination_by structural v => v

def wfList : List JVal → Bool
  | [] => true
  | v :: xs => wfJ v && wfList xs
termination_by structural l => l

def wfEntries : List (String × JVal) → Bool
  | [] => true
  | (_, v) :: xs => wfJ v && wfEntries xs
termination_by structural l => l

end

/-! ### Canonical serialization (`json.dumps(·, sort_keys=True, default=str)`) -/

/-- Lowercase-hex character for a nibble. -/
def hexDigits : List Char := "0123456789abcdef".data

def hexChar (n : Nat) : Char := hexDigits.getD (n % 16) '0'

/-- Four-digit `\uXXXX` escape body. -/
def hex4 (n : Nat) : List Char :=
  [hexChar (n >>> 12), hexChar (n >>> 8), hexChar (n >>> 4), hexChar n]

/-- JSON string escaping as performed by `json.dumps` with the default
`ensure_ascii=True`: `\"`, `\\`, the short escapes, `\uXXXX` for other
characters outside the printable ASCII range U+0020–U+007E (with surrogate
pairs above U+FFFF). -/
def jsonEscapeChar (c : Char) : List Char :=
  if c = '"' then ['\\', '"']
  else if c = '\\' then ['\\', '\\']
  else if c = '\n' then ['\\', 'n']
  else if c = '\t' then ['\\', 't']
  else if c = '\x0d' then ['\\', 'r']
  else if c = '\x08' then ['\\', 'b']
  else if c = '\x0c' then ['\\', 'f']
  else if c.toNat < 32 then '\\' :: 'u' :: hex4 c.toNat
  else if c.toNat < 127 then [c]
  else if c.toNat < 65536 then '\\' :: 'u' :: hex4 c.toNat
  else
    '\\' :: 'u' :: hex4 (55296 + (c.toNat - 65536) / 1024) ++
      '\\' :: 'u' :: hex4 (56320 + (c.toNat - 65536) % 1024)

/-- A double-quoted, escaped JSON string literal. -/
def jsonQuote (s : String) : String :=
  ⟨'"' :: s.data.flatMap jsonEscapeChar ++ ['"']⟩

/-- Code-point lexicographic `≤` on character lists: the order Python string
comparison (and hence `sorted`/`sort_keys=True`) uses. -/
def charsLe : List Char → List Char → Bool
  | [], _ => true
  | _ :: _, [] => false
  | a :: as, b :: bs =>
    if a.toNat < b.toNat then true
    else if b.toNat < a.toNat then false
    else charsLe as bs

/-- Python `<=` on strings. -/
def strLeB (a b : String) : Bool := charsLe a.data b.data

theorem charsLe_total : ∀ a b : List Char, charsLe a b = true ∨ charsLe b a = true
  | [], _ => Or.inl rfl
  | _ :: _, [] => Or.inr rfl
  | a :: as, b :: bs => by
    by_cases hab : a.toNat < b.toNat
    · left; simp [charsLe, hab]
    · by_cases hba : b.toNat < a.toNat
      · right; simp [charsLe, hba]
      · rcases charsLe_total as bs with h | h
        · left; simpa [charsLe, hab, hba] using h
        · right; simpa [charsLe, hab, hba] using h

theorem charsLe_trans : ∀ a b c : List Char,
    charsLe a b = true → charsLe b c = true → charsLe a c = true
  | [], _, _ => by intro _ _; rfl
  | _ :: _, [], _ => by intro h _; simp [charsLe] at h
  | _ :: _, _ :: _, [] => by intro _ h; simp [charsLe] at h
  | a :: as, b :: bs, c :: cs => by
    intro h1 h2
    simp only [charsLe] at h1 h2 ⊢
    by_cases hab : a.toNat < b.toNat
    · by_cases hbc : b.toNat < c.toNat
      · simp [show a.toNat < c.toNat by omega]
      · by_cases hcb : c.toNat < b.toNat
        · simp [hbc, hcb] at h2
        · simp [show a.toNat < c.toNat by omega]
    · by_cases hba : b.toNat < a.toNat
      · simp [hab, hba] at h1
      · rw [if_neg hab, if_neg hba] at h1
        by_cases hbc : b.toNat < c.toNat
        · simp [show a.toNat < c.toNat by omega]
        · by_cases hcb : c.toNat < b.toNat
          · simp [hbc, hcb] at h2
          · rw [if_neg hbc, if_neg hcb] at h2
            rw [if_neg (show ¬a.toNat < c.toNat by omega),
              if_neg (show ¬c.toNat < a.toNat by omega)]
            exact charsLe_trans as bs cs h1 h2

/-- Characters with equal code points are equal. -/
theorem char_toNat_inj (a b : Char) (h : a.toNat = b.toNat) : a = b :=
  calc a = Char.ofNat a.toNat := (Char.ofNat_toNat a).symm
    _ = Char.ofNat b.toNat := by rw [h]
    _ = b := Char.ofNat_toNat b

theorem charsLe_antisymm : ∀ a b : List Char,
    charsLe a b = true → charsLe b a = true → a = b
  | [], [] => by intro _ _; rfl
  | [], _ :: _ => by intro _ h; simp [charsLe] at h
  | _ :: _, [] => by intro h _; simp [charsLe] at h
  | a :: as, b :: bs => by
    intro h1 h2
    simp only [charsLe] at h1 h2
    by_cases hab : a.toNat < b.toNat
    · simp [show ¬b.toNat < a.toNat by omega, hab] at h2
    · by_cases hba : b.toNat < a.toNat
      · simp [hab, hba] at h1
      · rw [if_neg hab, if_neg hba] at h1
        rw [if_neg hba, if_neg hab] at h2
        have hc : a = b := char_toNat_inj a b (by omega)
        exact hc ▸ congrArg (a :: ·) (charsLe_antisymm as bs h1 h2)

/-- Key order used by `sort_keys=True`: code-point lexicographic `≤` on the
key component (Python `sorted` is stable, as is insertion sort). -/
def keyLE (p q : String × String) : Prop := strLeB p.1 q.1 = true

instance : DecidableRel keyLE := fun p q => inferInstanceAs (Decidable (strLeB p.1 q.1 = true))

instance : IsTotal (String × String) keyLE := ⟨fun a b => charsLe_total a.1.data b.1.data⟩

instance : IsTrans (String × String) keyLE :=
  ⟨fun a b c => charsLe_trans a.1.data b.1.data c.1.data⟩

/-- Comma-join of already-dumped `key: value` pairs (separators `', '` and
`': '` are the `json.dumps` defaults). -/
def dumpsPairs : List (String × String) → String
  | [] => ""
  | [(k, s)] => jsonQuote k ++ ": " ++ s
  | (k, s) :: q :: xs => jsonQuote k ++ ": " ++ s ++ ", " ++ dumpsPairs (q :: xs)

mutual

/-- Embedding of `json.dumps(v, sort_keys=True, default=str)`.  A dict is
dumped by dumping each value, sorting the `(key, dumped value)` pairs by key
(equivalent to sorting the keys first, since the order relation reads only
the key), and comma-joining; `opaq` values take the `default=str` route and
are dumped as their `str()` form, i.e. exactly like a string. -/
def json_dumps : JVal → String
  | .null => "null"
  | .bool true => "true"
  | .bool false => "false"
  | .num i => toString i
  | .str s => jsonQuote s
  | .opaq s => jsonQuote s
  | .arr l => "[" ++ dumpsList l ++ "]"
  | .obj l => "\x7b" ++ dumpsPairs ((dumpEntries l).insertionSort keyLE) ++ "\x7d"
termination_by structural v => v

/-- Comma-join of the dumps of array elements. -/
def dumpsList : List JVal → String
  | [] => ""
  | [v] => json_dumps v
  | v :: w :: xs => json_dumps v ++ ", " ++ dumpsList (w :: xs)
termination_by structural l => l

/-- Dump every value of a dict, keeping keys. -/
def dumpEntries : List (String × JVal) → List (String × String)
  | [] => []
  | (k, v) :: xs => (k, json_dumps v) :: dumpEntries xs
termination_by structural l => l

end

/-! ### Structural identity up to key order (`canon`)

`canon` recursively sorts every dict's entries by key.  Two payloads are
"structurally identical" (same keys and values regardless of dict key
insertion order, at every nesting depth) precisely when their
canonicalizations are equal. -/

/-- Key order on dict entries, same relation as `keyLE` but on unserialized
values. -/
def ekeyLE (p q : String × JVal) : Prop := strLeB p.1 q.1 = true

instance : DecidableRel ekeyLE := fun p q => inferInstanceAs (Decidable (strLeB p.1 q.1 = true))

instance : IsTotal (String × JVal) ekeyLE := ⟨fun a b => charsLe_total a.1.data b.1.data⟩

instance : IsTrans (String × JVal) ekeyLE :=
  ⟨fun a b c => charsLe_trans a.1.data b.1.data c.1.data⟩

mutual

/-- Recursively sort all dict entries by key. -/
def canon : JVal → JVal
  | .null => .null
  | .bool b => .bool b
  | .num i => .num i
  | .str s => .str s
  | .opaq s => .opaq s
  | .arr l => .arr (canonList l)
  | .obj l => .obj ((canonEntries l).insertionSort ekeyLE)
termination_by structural v => v

def canonList : List JVal → List JVal
  | [] => []
  | v :: xs => canon v :: canonList xs
termination_by structural l => l

def canonEntries : List (String × JVal) → List (String × JVal)
  | [] => []
  | (k, v) :: xs => (k, canon v) :: canonEntries xs
termination_by structural l => l

end

/-! ### SHA-256 (`hashlib.sha256(...).hexdigest()`)

A direct embedding of FIPS 180-4 SHA-256 over byte lists, with 32-bit words
as `Nat` reduced `% 2^32`.  Checked against the official test vectors
(empty string, `"abc"`). -/

def M32 : Nat := 4294967296

def rotr32 (x n : Nat) : Nat := ((x >>> n) ||| (x <<< (32 - n))) % M32

def bsig0 (x : Nat) : Nat := (rotr32 x 2 ^^^ rotr32 x 13) ^^^ rotr32 x 22
def bsig1 (x : Nat) : Nat := (rotr32 x 6 ^^^ rotr32 x 11) ^^^ rotr32 x 25
def ssig0 (x : Nat) : Nat := (rotr32 x 7 ^^^ rotr32 x 18) ^^^ (x >>> 3)
def ssig1 (x : Nat) : Nat := (rotr32 x 17 ^^^ rotr32 x 19) ^^^ (x >>> 10)

def chF (x y z : Nat) : Nat := (x &&& y) ^^^ ((x ^^^ 4294967295) &&& z)
def majF (x y z : Nat) : Nat := ((x &&& y) ^^^ (x &&& z)) ^^^ (y &&& z)

def K256 : List Nat :=
  [1116352408, 1899447441, 3049323471, 3921009573,
   961987163, 1508970993, 2453635748, 2870763221,
   3624381080, 310598401, 607225278, 1426881987,
   1925078388, 2162078206, 2614888103, 3248222580,
   3835390401, 4022224774, 264347078, 604807628,
   770255983, 1249150122, 1555081692, 1996064986,
   2554220882, 2821834349, 2952996808, 3210313671,
   3336571891, 3584528711, 113926993, 338241895,
   666307205, 773529912, 1294757372, 1396182291,
   1695183700, 1986661051, 2177026350, 2456956037,
   2730485921, 2820302411, 3259730800, 3345764771,
   3516065817, 3600352804, 4094571909, 275423344,
   430227734, 506948616, 659060556, 883997877,
   958139571, 1322822218, 1537002063, 1747873779,
   1955562222, 2024104815, 2227730452, 2361852424,
   2428436474, 2756734187, 3204031479, 3329325298]

/-- The eight working variables of the compression function. -/
structure H8 where
  a : Nat
  b : Nat
  c : Nat
  d : Nat
  e : Nat
  f : Nat
  g : Nat
  h : Nat

def initH : H8 :=
  ⟨1779033703, 3144134277, 1013904242, 2773480762,
   1359893119, 2600822924, 528734635, 1541459225⟩

/-- One compression round for round constant and schedule word `kw`. -/
def round256 (s : H8) (kw : Nat × Nat) : H8 :=
  let t1 := (s.h + bsig1 s.e + chF s.e s.f s.g + kw.1 + kw.2) % M32
  let t2 := (bsig0 s.a + majF s.a s.b s.c) % M32
  ⟨(t1 + t2) % M32, s.a, s.b, s.c, (s.d + t1) % M32, s.e, s.f, s.g⟩

/-- Big-endian 32-bit word `i` of a byte chunk. -/
def word32At (l : List Nat) (i : Nat) : Nat :=
  (l.getD (4 * i) 0) <<< 24 ||| (l.getD (4 * i + 1) 0) <<< 16 |||
  (l.getD (4 * i + 2) 0) <<< 8 ||| l.getD (4 * i + 3) 0

/-- Message schedule: extend the 16 chunk words by `n` more. -/
def extendW : Nat → List Nat → List Nat
  | 0, ws => ws
  | n + 1, ws =>
    let t := ws.length
    let w := (ssig1 (ws.getD (t - 2) 0) + ws.getD (t - 7) 0 +
              ssig0 (ws.getD (t - 15) 0) + ws.getD (t - 16) 0) % M32
    extendW n (ws ++ [w])

/-- Compress one 64-byte chunk into the running hash state. -/
def processChunk (s : H8) (chunk : List Nat) : H8 :=
  let w := extendW 48 ((List.range 16).map (word32At chunk))
  let t := (K256.zip w).foldl round256 s
  ⟨(s.a + t.a) % M32, (s.b + t.b) % M32, (s.c + t.c) % M32, (s.d + t.d) % M32,
   (s.e + t.e) % M32, (s.f + t.f) % M32, (s.g + t.g) % M32, (s.h + t.h) % M32⟩

/-- Split into 64-byte chunks, given the chunk count. -/
def toChunks : Nat → List Nat → List (List Nat)
  | 0, _ => []
  | n + 1, l => l.take 64 :: toChunks n (l.drop 64)

/-- Big-endian bytes of `x`, `n` bytes wide. -/
def bytesBE (n : Nat) (x : Nat) : List Nat :=
  (List.range n).map fun i => (x >>> (8 * (n - 1 - i))) % 256

/-- SHA-256 padding: `0x80`, zeros to 56 mod 64, then the 8-byte bit length. -/
def sha256pad (msg : List Nat) : List Nat :=
  msg ++ [128] ++ List.replicate ((119 - msg.length % 64) % 64) 0 ++ bytesBE 8 (8 * msg.length)

def sha256 (msg : List Nat) : H8 :=
  let padded := sha256pad msg
  (toChunks (padded.length / 64) padded).foldl processChunk initH

/-- Eight lowercase-hex characters of one 32-bit word. -/
def toHex8 (x : Nat) : List Char :=
  (List.range 8).map fun i => hexChar (x >>> (4 * (7 - i)))

def hexOfH8 (s : H8) : List Char :=
  toHex8 s.a ++ toHex8 s.b ++ toHex8 s.c ++ toHex8 s.d ++
  toHex8 s.e ++ toHex8 s.f ++ toHex8 s.g ++ toHex8 s.h

/-- UTF-8 bytes of one character (`str.encode()` is UTF-8). -/
def utf8Bytes (c : Char) : List Nat :=
  let n := c.toNat
  if n < 128 then [n]
  else if n < 2048 then [192 + n / 64, 128 + n % 64]
  else if n < 65536 then [224 + n / 4096, 128 + (n / 64) % 64, 128 + n % 64]
  else [240 + n / 262144, 128 + (n / 4096) % 64, 128 + (n / 64) % 64, 128 + n % 64]

def utf8Encode (s : String) : List Nat := s.data.flatMap utf8Bytes

/-- `hashlib.sha256(s.encode()).hexdigest()`. -/
def sha256hex (s : String) : String := ⟨hexOfH8 (sha256 (utf8Encode s))⟩

/-- Embedding of `generate_result_hash`:
`hashlib.sha256(json.dumps(result_blob, sort_keys=True, default=str).encode()).hexdigest()`. -/
def generate_result_hash (result_blob : JVal) : String :=
  sha256hex (json_dumps result_blob)

/-! ### Diagnostic records, `find_similar_diagnostics`, `compare_diagnostics` -/

/-- The slice of a diagnostic record the comparator reads.  Every field is
read with `.get(...)` in the source, so each is optional; a missing
`result_blob` defaults to `{}`. -/
structure DiagRecord where
  timestamp : Option String
  source : Option String
  query : Option String
  result_hash : Option String
  result_blob : Option (List (String × JVal))
deriving DecidableEq

/-- Scan loop of `find_similar_diagnostics`: append each record whose
`result_hash` equals the target, and break as soon as
`len(similar) >= max_results` after an append. -/
def findSimilarAux (target_hash : String) (max_results : Int) :
    List DiagRecord → List DiagRecord → List DiagRecord
  | [], acc => acc
  | d :: rest, acc =>
    if d.result_hash = some target_hash then
      if ((acc ++ [d]).length : Int) ≥ max_results then acc ++ [d]
      else findSimilarAux target_hash max_results rest (acc ++ [d])
    else findSimilarAux target_hash max_results rest acc

/-- Embedding of `find_similar_diagnostics`, taking the already-loaded
`diagnostics` list of the runbook (`max_results` is a Python `int`). -/
def find_similar_diagnostics (records : List DiagRecord) (target_hash : String)
    (max_results : Int) : List DiagRecord :=
  findSimilarAux target_hash max_results records []

/-- Result shape of `compare_diagnostics`; each entry of `differences` holds
the `value1`/`value2` pair, where an absent side is filled with Python `None`
(= `JVal.null`). -/
structure CompResult where
  timestamp1 : Option String
  timestamp2 : Option String
  source1 : Option String
  source2 : Option String
  differences : List (String × (JVal × JVal))
deriving DecidableEq

/-- First loop: keys existing in both blobs whose values differ under
Python `==` (`result1[key] != result2[key]`). -/
def diffBoth (r1 r2 : List (String × JVal)) : List (String × (JVal × JVal)) :=
  r1.filterMap fun p =>
    match alookup r2 p.1 with
    | some v2 => if pyEq p.2 v2 = true then none else some (p.1, (p.2, v2))
    | none => none

/-- Second loop: keys only in the first blob (`value2 = None`). -/
def diffOnly1 (r1 r2 : List (String × JVal)) : List (String × (JVal × JVal)) :=
  r1.filterMap fun p =>
    match alookup r2 p.1 with
    | some _ => none
    | none => some (p.1, (p.2, JVal.null))

/-- Third loop: keys only in the second blob (`value1 = None`). -/
def diffOnly2 (r1 r2 : List (String × JVal)) : List (String × (JVal × JVal)) :=
  r2.filterMap fun p =>
    match alookup r1 p.1 with
    | some _ => none
    | none => some (p.1, (JVal.null, p.2))

/-- Embedding of `compare_diagnostics`: keys in both blobs with unequal
values, then keys only in the first (`value2 = None`), then keys only in the
second (`value1 = None`).  The source iterates Python sets here; set
iteration order is arbitrary, and this embedding fixes the respective blob's
entry order, which is irrelevant to the mapping contents. -/
def compare_diagnostics (d1 d2 : DiagRecord) : CompResult :=
  let r1 := d1.result_blob.getD []
  let r2 := d2.result_blob.getD []
  ⟨d1.timestamp, d2.timestamp, d1.source, d2.source,
    diffBoth r1 r2 ++ diffOnly1 r1 r2 ++ diffOnly2 r1 r2⟩

example : json_dumps (.obj [("b", .num 2), ("a", .num 1)]) =
    "\x7b\"a\": 1, \"b\": 2\x7d" := by decide

example : json_dumps (.obj [("a", .arr [.num 1, .null, .bool true, .bool false, .num (-5)])]) =
    "\x7b\"a\": [1, null, true, false, -5]\x7d" := by decide

example : json_dumps (.obj [("nested", .obj [("b", .num 1), ("a", .obj [("d", .num 2), ("c", .num 3)])])]) =
    "\x7b\"nested\": \x7b\"a\": \x7b\"c\": 3, \"d\": 2\x7d, \"b\": 1\x7d\x7d" := by decide

example : json_dumps (.str "") = "\"\"" := by decide

/-! ### Counter lemmas -/

theorem counterGet_cons (k1 : String) (v1 : Nat) (rest : List (String × Nat)) (key : String) :
    counterGet ((k1, v1) :: rest) key = if k1 = key then v1 else counterGet rest key := by
  by_cases h : k1 = key <;> simp [counterGet, alookup, h]

theorem counterGet_counterAdd : ∀ (m : List (String × Nat)) (k key : String),
    counterGet (counterAdd m k) key = counterGet m key + if k = key then 1 else 0
  | [], k, key => by
    by_cases h : k = key <;> simp [counterAdd, counterGet, alookup, h]
  | (k1, v1) :: rest, k, key => by
    rw [counterAdd]
    by_cases h1 : k1 = k
    · rw [if_pos h1, counterGet_cons, counterGet_cons]
      by_cases h2 : k1 = key
      · rw [if_pos h2, if_pos h2, if_pos (h1 ▸ h2)]
      · rw [if_neg h2, if_neg h2, if_neg (fun hk => h2 (h1.trans hk)), Nat.add_zero]
    · rw [if_neg h1, counterGet_cons, counterGet_cons]
      by_cases h2 : k1 = key
      · rw [if_pos h2, if_pos h2, if_neg (fun hk : k = key => h1 (by rw [h2, hk])), Nat.add_zero]
      · rw [if_neg h2, if_neg h2, counterGet_counterAdd rest k key]

theorem counterGet_foldl : ∀ (tags : List String) (m : List (String × Nat)) (key : String),
    counterGet (tags.foldl counterAdd m) key = counterGet m key + tags.count key
  | [], m, key => by simp
  | t :: ts, m, key => by
    rw [List.foldl_cons, counterGet_foldl ts (counterAdd m t) key,
      counterGet_counterAdd m t key, List.count_cons]
    by_cases h : t = key <;> simp [h] <;> omega

theorem pairsGet_pairsAdd : ∀ (m : List (String × List (String × Nat))) (c f c2 f2 : String),
    pairsGet (pairsAdd m c f) c2 f2 =
      pairsGet m c2 f2 + if c = c2 ∧ f = f2 then 1 else 0
  | [], c, f, c2, f2 => by
    by_cases h1 : c = c2
    · subst h1
      by_cases h2 : f = f2 <;>
        simp [pairsAdd, pairsGet, counterGet, alookup, h2]
    · simp [pairsAdd, pairsGet, counterGet, alookup, h1]
  | (k, inner) :: rest, c, f, c2, f2 => by
    have hcons : ∀ (inr : List (String × Nat)) (rst : List (String × List (String × Nat))),
        pairsGet ((k, inr) :: rst) c2 f2 =
          if k = c2 then counterGet inr f2 else pairsGet rst c2 f2 := by
      intro inr rst
      by_cases h : k = c2 <;> simp [pairsGet, alookup, h]
    rw [pairsAdd]
    by_cases h1 : k = c
    · rw [if_pos h1, hcons, hcons]
      by_cases h2 : k = c2
      · rw [if_pos h2, if_pos h2, counterGet_counterAdd inner f f2]
        by_cases h3 : f = f2
        · rw [if_pos h3, if_pos ⟨h1.symm.trans h2, h3⟩]
        · rw [if_neg h3, if_neg (fun hp : c = c2 ∧ f = f2 => h3 hp.2)]
      · rw [if_neg h2, if_neg h2,
          if_neg (fun hp : c = c2 ∧ f = f2 => h2 (h1.trans hp.1)), Nat.add_zero]
    · rw [if_neg h1, hcons, hcons]
      by_cases h2 : k = c2
      · rw [if_pos h2, if_pos h2,
          if_neg (fun hp : c = c2 ∧ f = f2 => h1 (h2.trans hp.1.symm)), Nat.add_zero]
      · rw [if_neg h2, if_neg h2, pairsGet_pairsAdd rest c f c2 f2]

theorem pairsGet_foldl_fixes : ∀ (fixes : List String)
    (m : List (String × List (String × Nat))) (c c2 f2 : String),
    pairsGet (fixes.foldl (fun q f => pairsAdd q c f) m) c2 f2 =
      pairsGet m c2 f2 + if c = c2 then fixes.count f2 else 0
  | [], m, c, c2, f2 => by simp
  | f :: fs, m, c, c2, f2 => by
    rw [List.foldl_cons, pairsGet_foldl_fixes fs (pairsAdd m c f) c c2 f2,
      pairsGet_pairsAdd m c f c2 f2, List.count_cons]
    by_cases h1 : c = c2 <;> by_cases h2 : f = f2 <;> simp [h1, h2] <;> omega

theorem pairsGet_foldl_causes : ∀ (causes fixes : List String)
    (m : List (String × List (String × Nat))) (c2 f2 : String),
    pairsGet (causes.foldl (fun p c => fixes.foldl (fun q f => pairsAdd q c f) p) m) c2 f2 =
      pairsGet m c2 f2 + causes.count c2 * fixes.count f2
  | [], _, m, c2, f2 => by simp
  | c :: cs, fixes, m, c2, f2 => by
    rw [List.foldl_cons, pairsGet_foldl_causes cs fixes _ c2 f2,
      pairsGet_foldl_fixes fixes m c c2 f2, List.count_cons]
    by_cases h : c = c2 <;> simp [h, Nat.add_mul] <;> ring

/-! ### Aggregator characterization

The three running counters of `analyze_runbook_annotations`, expressed as
sums over the input annotations. -/

/-- Matched cause tags of one annotation. -/
def annCauses (a : AnnRecord) : List String := extract_canonical_causes (a.cause.getD "")

/-- Matched fix tags of one annotation. -/
def annFixes (a : AnnRecord) : List String := extract_canonical_fixes (a.fix.getD "")

theorem foldl_annStep_cause : ∀ (anns : List AnnRecord)
    (st : List (String × Nat) × List (String × Nat) × List (String × List (String × Nat)))
    (c : String),
    counterGet (anns.foldl annStep st).1 c =
      counterGet st.1 c + (anns.map fun a => (annCauses a).count c).sum
  | [], _, _ => by simp
  | a :: as, st, c => by
    rw [List.foldl_cons, foldl_annStep_cause as (annStep st a) c]
    simp only [annStep, annCauses, counterGet_foldl, List.map_cons, List.sum_cons]
    omega

theorem foldl_annStep_fix : ∀ (anns : List AnnRecord)
    (st : List (String × Nat) × List (String × Nat) × List (String × List (String × Nat)))
    (f : String),
    counterGet (anns.foldl annStep st).2.1 f =
      counterGet st.2.1 f + (anns.map fun a => (annFixes a).count f).sum
  | [], _, _ => by simp
  | a :: as, st, f => by
    rw [List.foldl_cons, foldl_annStep_fix as (annStep st a) f]
    simp only [annStep, annFixes, counterGet_foldl, List.map_cons, List.sum_cons]
    omega

theorem foldl_annStep_pairs : ∀ (anns : List AnnRecord)
    (st : List (String × Nat) × List (String × Nat) × List (String × List (String × Nat)))
    (c f : String),
    pairsGet (anns.foldl annStep st).2.2 c f =
      pairsGet st.2.2 c f + (anns.map fun a => (annCauses a).count c * (annFixes a).count f).sum
  | [], _, _, _ => by simp
  | a :: as, st, c, f => by
    rw [List.foldl_cons, foldl_annStep_pairs as (annStep st a) c f]
    simp only [annStep, annCauses, annFixes, pairsGet_foldl_causes, List.map_cons,
      List.sum_cons]
    omega

/-- Summary characterization of the aggregate, used by several claims. -/
theorem analyze_spec (anns : List AnnRecord) :
    (∀ c, counterGet (analyze_runbook_annotations anns).cause_counts c =
      (anns.map fun a => (annCauses a).count c).sum) ∧
    (∀ f, counterGet (analyze_runbook_annotations anns).fix_counts f =
      (anns.map fun a => (annFixes a).count f).sum) ∧
    (∀ c f, pairsGet (analyze_runbook_annotations anns).cause_fix_pairs c f =
      (anns.map fun a => (annCauses a).count c * (annFixes a).count f).sum) ∧
    (analyze_runbook_annotations anns).total_incidents = anns.length := by
  refine ⟨fun c => ?_, fun f => ?_, fun c f => ?_, rfl⟩
  · simpa [counterGet, alookup] using foldl_annStep_cause anns ([], [], []) c
  · simpa [counterGet, alookup] using foldl_annStep_fix anns ([], [], []) f
  · simpa [pairsGet, counterGet, alookup] using foldl_annStep_pairs anns ([], [], []) c f

/-! ### All stored counts are at least 1

An entry enters a counter only via an increment, so every stored value is
positive.  This is what makes `min_frequency ≤ 0` degenerate to
`min_frequency = 1`. -/

theorem counterAdd_pos : ∀ (m : List (String × Nat)) (k : String),
    (∀ p ∈ m, 1 ≤ p.2) → ∀ p ∈ counterAdd m k, 1 ≤ p.2
  | [], k, _ => by simp [counterAdd]
  | (k1, v1) :: rest, k, hm => by
    by_cases h : k1 = k
    · simp only [counterAdd, if_pos h]
      intro p hp
      rcases List.mem_cons.mp hp with rfl | hp
      · omega
      · exact hm p (List.mem_cons_of_mem _ hp)
    · simp only [counterAdd, if_neg h]
      intro p hp
      rcases List.mem_cons.mp hp with rfl | hp
      · exact hm _ (List.mem_cons_self _ _)
      · exact counterAdd_pos rest k (fun q hq => hm q (List.mem_cons_of_mem _ hq)) p hp

theorem foldl_counterAdd_pos (tags : List String) (m : List (String × Nat))
    (hm : ∀ p ∈ m, 1 ≤ p.2) : ∀ p ∈ tags.foldl counterAdd m, 1 ≤ p.2 := by
  induction tags generalizing m with
  | nil => exact hm
  | cons t ts ih => exact ih (counterAdd m t) (counterAdd_pos m t hm)

theorem pairsAdd_pos : ∀ (m : List (String × List (String × Nat))) (c f : String),
    (∀ q ∈ m, ∀ p ∈ q.2, 1 ≤ p.2) → ∀ q ∈ pairsAdd m c f, ∀ p ∈ q.2, 1 ≤ p.2
  | [], c, f, _ => by simp [pairsAdd, counterAdd]
  | (k, inner) :: rest, c, f, hm => by
    by_cases h : k = c
    · simp only [pairsAdd, if_pos h]
      intro q hq
      rcases List.mem_cons.mp hq with rfl | hq
      · exact counterAdd_pos inner f (hm _ (List.mem_cons_self _ _))
      · exact hm q (List.mem_cons_of_mem _ hq)
    · simp only [pairsAdd, if_neg h]
      intro q hq
      rcases List.mem_cons.mp hq with rfl | hq
      · exact hm _ (List.mem_cons_self _ _)
      · exact pairsAdd_pos rest c f (fun r hr => hm r (List.mem_cons_of_mem _ hr)) q hq

theorem foldl_pairsAdd_pos (causes fixes : List String)
    (m : List (String × List (String × Nat)))
    (hm : ∀ q ∈ m, ∀ p ∈ q.2, 1 ≤ p.2) :
    ∀ q ∈ causes.foldl (fun p c => fixes.foldl (fun q2 f => pairsAdd q2 c f) p) m,
      ∀ p ∈ q.2, 1 ≤ p.2 := by
  induction causes generalizing m with
  | nil => exact hm
  | cons c cs ih =>
    refine ih _ ?_
    clear ih
    induction fixes generalizing m with
    | nil => exact hm
    | cons f fs ihf => exact ihf (pairsAdd m c f) (pairsAdd_pos m c f hm)

/-- Every count stored by the aggregator is at least 1. -/
theorem analyze_pos (anns : List AnnRecord) :
    (∀ p ∈ (analyze_runbook_annotations anns).cause_counts, 1 ≤ p.2) ∧
    (∀ p ∈ (analyze_runbook_annotations anns).fix_counts, 1 ≤ p.2) ∧
    (∀ q ∈ (analyze_runbook_annotations anns).cause_fix_pairs, ∀ p ∈ q.2, 1 ≤ p.2) := by
  have main : ∀ (l : List AnnRecord)
      (st : List (String × Nat) × List (String × Nat) ×
        List (String × List (String × Nat))),
      (∀ p ∈ st.1, 1 ≤ p.2) → (∀ p ∈ st.2.1, 1 ≤ p.2) →
      (∀ q ∈ st.2.2, ∀ p ∈ q.2, 1 ≤ p.2) →
      (∀ p ∈ (l.foldl annStep st).1, 1 ≤ p.2) ∧
      (∀ p ∈ (l.foldl annStep st).2.1, 1 ≤ p.2) ∧
      (∀ q ∈ (l.foldl annStep st).2.2, ∀ p ∈ q.2, 1 ≤ p.2) := by
    intro l
    induction l with
    | nil => intro st h1 h2 h3; exact ⟨h1, h2, h3⟩
    | cons a as ih =>
      intro st h1 h2 h3
      exact ih (annStep st a)
        (foldl_counterAdd_pos _ _ h1)
        (foldl_counterAdd_pos _ _ h2)
        (foldl_pairsAdd_pos _ _ _ h3)
  have h := main anns ([], [], []) (by simp) (by simp) (by simp)
  exact h

/-! ### `find_similar_diagnostics` lemmas -/

theorem findSimilarAux_decomp (t : String) (n : Int) :
    ∀ (l acc : List DiagRecord), ∃ r, findSimilarAux t n l acc = acc ++ r ∧
      r.Sublist l ∧ ∀ d ∈ r, d.result_hash = some t
  | [], acc => ⟨[], by simp [findSimilarAux]⟩
  | d :: rest, acc => by
    by_cases hm : d.result_hash = some t
    · by_cases hn : ((acc ++ [d]).length : Int) ≥ n
      · refine ⟨[d], ?_, (List.nil_sublist rest).cons₂ d, ?_⟩
        · simp only [findSimilarAux, if_pos hm, if_pos hn]
        · simpa using hm
      · obtain ⟨r, hr, hs, hh⟩ := findSimilarAux_decomp t n rest (acc ++ [d])
        refine ⟨d :: r, ?_, hs.cons₂ d, ?_⟩
        · simp only [findSimilarAux, if_pos hm, if_neg hn, hr, List.append_assoc,
            List.singleton_append]
        · intro e he
          rcases List.mem_cons.mp he with rfl | he
          · exact hm
          · exact hh e he
    · obtain ⟨r, hr, hs, hh⟩ := findSimilarAux_decomp t n rest acc
      exact ⟨r, by simp [findSimilarAux, hm, hr], hs.cons d, hh⟩

theorem findSimilarAux_length_le (t : String) (n : Int) :
    ∀ (l acc : List DiagRecord), (acc.length : Int) < n →
      ((findSimilarAux t n l acc).length : Int) ≤ n
  | [], acc, h => by simpa [findSimilarAux] using le_of_lt h
  | d :: rest, acc, h => by
    by_cases hm : d.result_hash = some t
    · by_cases hn : ((acc ++ [d]).length : Int) ≥ n
      · simp only [findSimilarAux, if_pos hm, if_pos hn]
        simp only [List.length_append, List.length_singleton] at *
        omega
      · simp only [findSimilarAux, if_pos hm, if_neg hn]
        exact findSimilarAux_length_le t n rest (acc ++ [d]) (by omega)
    · simp only [findSimilarAux, if_neg hm]
      exact findSimilarAux_length_le t n rest acc h

/-- For a non-positive bound the scan stops right after the first match: the
result is exactly the first matching record as a singleton, or empty when no
record matches. -/
theorem findSimilarAux_nonpos_eq (t : String) (n : Int) (hn : n ≤ 0) :
    ∀ l : List DiagRecord, findSimilarAux t n l [] =
      match l.find? (fun d => d.result_hash = some t) with
      | some d => [d]
      | none => []
  | [] => rfl
  | d :: rest => by
    by_cases hm : d.result_hash = some t
    · have hb : (([d] : List DiagRecord).length : Int) ≥ n := by
        simp only [List.length_singleton]
        omega
      rw [List.find?_cons_of_pos _ (by simp [hm])]
      simp only [findSimilarAux, if_pos hm, List.nil_append]
      rw [if_pos hb]
    · rw [List.find?_cons_of_neg _ (by simp [hm])]
      simp only [findSimilarAux, if_neg hm]
      exact findSimilarAux_nonpos_eq t n hn rest

/-! ### Serialization lemmas: sorting commutes with recursive canonicalization -/

theorem string_data_inj {a b : String} (h : a.data = b.data) : a = b := by
  cases a; cases b; exact congrArg String.mk h

theorem strLeB_antisymm {a b : String} (h1 : strLeB a b = true) (h2 : strLeB b a = true) :
    a = b :=
  string_data_inj (charsLe_antisymm _ _ h1 h2)

theorem dumpEntries_eq_map : ∀ l : List (String × JVal),
    dumpEntries l = l.map fun p => (p.1, json_dumps p.2)
  | [] => rfl
  | (k, v) :: xs => by rw [dumpEntries, List.map_cons, dumpEntries_eq_map xs]

theorem canonEntries_eq_map : ∀ l : List (String × JVal),
    canonEntries l = l.map fun p => (p.1, canon p.2)
  | [] => rfl
  | (k, v) :: xs => by rw [canonEntries, List.map_cons, canonEntries_eq_map xs]

theorem canonList_eq_map : ∀ l : List JVal, canonList l = l.map canon
  | [] => rfl
  | v :: xs => by rw [canonList, List.map_cons, canonList_eq_map xs]

/-- Dumping values commutes with key-sorting, because the order relation
reads only the key. -/
theorem dumpEntries_sortE (m : List (String × JVal)) :
    dumpEntries (m.insertionSort ekeyLE) = (dumpEntries m).insertionSort keyLE := by
  rw [dumpEntries_eq_map, dumpEntries_eq_map]
  exact List.map_insertionSort ekeyLE keyLE _ m (fun a _ b _ => Iff.rfl)

theorem insertionSort_keyLE_idem (m : List (String × String)) :
    (m.insertionSort keyLE).insertionSort keyLE = m.insertionSort keyLE :=
  List.Sorted.insertionSort_eq (List.sorted_insertionSort keyLE m)

mutual

/-- `json.dumps(..., sort_keys=True)` is invariant under recursive
canonicalization: pre-sorting every dict changes nothing. -/
theorem dumps_canon : ∀ v : JVal, json_dumps (canon v) = json_dumps v
  | .null => rfl
  | .bool true => rfl
  | .bool false => rfl
  | .num _ => rfl
  | .str _ => rfl
  | .opaq _ => rfl
  | .arr l => by
    show "[" ++ dumpsList (canonList l) ++ "]" = "[" ++ dumpsList l ++ "]"
    rw [dumpsList_canon l]
  | .obj l => by
    show "\x7b" ++ dumpsPairs ((dumpEntries ((canonEntries l).insertionSort ekeyLE)).insertionSort
        keyLE) ++ "\x7d" =
      "\x7b" ++ dumpsPairs ((dumpEntries l).insertionSort keyLE) ++ "\x7d"
    rw [dumpEntries_sortE, dumpEntries_canonEntries l, insertionSort_keyLE_idem]
termination_by structural v => v

theorem dumpsList_canon : ∀ l : List JVal, dumpsList (canonList l) = dumpsList l
  | [] => rfl
  | [v] => dumps_canon v
  | v :: w :: xs => by
    show json_dumps (canon v) ++ ", " ++ dumpsList (canonList (w :: xs)) =
      json_dumps v ++ ", " ++ dumpsList (w :: xs)
    rw [dumps_canon v, dumpsList_canon (w :: xs)]
termination_by structural l => l

theorem dumpEntries_canonEntries : ∀ l : List (String × JVal),
    dumpEntries (canonEntries l) = dumpEntries l
  | [] => rfl
  | (k, v) :: xs => by
    show (k, json_dumps (canon v)) :: dumpEntries (canonEntries xs) =
      (k, json_dumps v) :: dumpEntries xs
    rw [dumps_canon v, dumpEntries_canonEntries xs]
termination_by structural l => l

end

/-- Payloads with equal canonical forms serialize identically, hence hash
identically. -/
theorem hash_canon_eq {a b : JVal} (h : canon a = canon b) :
    generate_result_hash a = generate_result_hash b := by
  unfold generate_result_hash
  rw [← dumps_canon a, h, dumps_canon b]

/-- Two sorted entry lists that are permutations of each other with no
duplicate keys are equal. -/
theorem sorted_perm_keys_eq : ∀ l1 l2 : List (String × JVal), l1.Perm l2 →
    l1.Sorted ekeyLE → l2.Sorted ekeyLE → (l1.map Prod.fst).Nodup → l1 = l2
  | [], l2, hp, _, _, _ => (hp.symm.eq_nil).symm
  | a :: t1, l2, hp, hs1, hs2, hnd => by
    cases l2 with
    | nil => exact absurd hp.eq_nil (by simp)
    | cons b t2 =>
      by_cases hab : a = b
      · subst hab
        have ht : t1 = t2 :=
          sorted_perm_keys_eq t1 t2 hp.cons_inv hs1.of_cons hs2.of_cons
            (by simpa using (List.nodup_cons.mp (by simpa using hnd)).2)
        rw [ht]
      · exfalso
        have ha2 : a ∈ t2 := by
          rcases List.mem_cons.mp (hp.mem_iff.mp (List.mem_cons_self a t1)) with h | h
          · exact absurd h hab
          · exact h
        have hb1 : b ∈ t1 := by
          rcases List.mem_cons.mp (hp.mem_iff.mpr (List.mem_cons_self b t2)) with h | h
          · exact absurd h.symm hab
          · exact h
        have h1 : ekeyLE a b := List.rel_of_sorted_cons hs1 b hb1
        have h2 : ekeyLE b a := List.rel_of_sorted_cons hs2 a ha2
        have hkey : a.1 = b.1 := strLeB_antisymm h1 h2
        have hmem : a.1 ∈ t1.map Prod.fst := hkey ▸ List.mem_map_of_mem Prod.fst hb1
        exact (List.nodup_cons.mp (by simpa using hnd)).1 hmem

/-- Permuting a dict's entries (no duplicate keys) does not change its
canonical form. -/
theorem canon_obj_perm (l l2 : List (String × JVal)) (hp : l.Perm l2)
    (hnd : (l.map Prod.fst).Nodup) : canon (.obj l) = canon (.obj l2) := by
  have hkeys : (canonEntries l).map Prod.fst = l.map Prod.fst := by
    rw [canonEntries_eq_map, List.map_map]; rfl
  have hce : (canonEntries l).Perm (canonEntries l2) := by
    rw [canonEntries_eq_map, canonEntries_eq_map]
    exact hp.map _
  have hperm : ((canonEntries l).insertionSort ekeyLE).Perm
      ((canonEntries l2).insertionSort ekeyLE) :=
    (List.perm_insertionSort ekeyLE _).trans
      (hce.trans (List.perm_insertionSort ekeyLE _).symm)
  have hnd1 : (((canonEntries l).insertionSort ekeyLE).map Prod.fst).Nodup := by
    have hpm : (((canonEntries l).insertionSort ekeyLE).map Prod.fst).Perm
        ((canonEntries l).map Prod.fst) := (List.perm_insertionSort ekeyLE _).map _
    exact hpm.nodup_iff.mpr (hkeys ▸ hnd)
  have heq := sorted_perm_keys_eq _ _ hperm (List.sorted_insertionSort ekeyLE _)
    (List.sorted_insertionSort ekeyLE _) hnd1
  show JVal.obj ((canonEntries l).insertionSort ekeyLE) =
    JVal.obj ((canonEntries l2).insertionSort ekeyLE)
  rw [heq]

/-! ### Digest shape: 64 lowercase hex characters -/

theorem hexChar_mem (n : Nat) : hexChar n ∈ hexDigits := by
  unfold hexChar
  have hlt : n % 16 < hexDigits.length := Nat.mod_lt n (by decide)
  rw [List.getD_eq_getElem hexDigits _ hlt]
  exact List.getElem_mem hlt

theorem hexOfH8_length (s : H8) : (hexOfH8 s).length = 64 := by
  simp [hexOfH8, toHex8]

theorem mem_hexOfH8 {c : Char} {s : H8} (h : c ∈ hexOfH8 s) : c ∈ hexDigits := by
  simp only [hexOfH8, List.mem_append, toHex8, List.mem_map, List.mem_range] at h
  rcases h with ((((((h | h) | h) | h) | h) | h) | h) | h <;>
    obtain ⟨i, _, rfl⟩ := h <;> exact hexChar_mem _

/-- The hasher always produces a 64-character lowercase-hex digest. -/
theorem generate_result_hash_shape (blob : JVal) :
    (generate_result_hash blob).length = 64 ∧
      ∀ c ∈ (generate_result_hash blob).data, c ∈ hexDigits := by
  constructor
  · show (String.mk (hexOfH8 _)).length = 64
    simpa [String.length] using hexOfH8_length _
  · intro c hc
    exact mem_hexOfH8 hc

/-! ### Comparator lemmas -/

theorem alookup_eq_none : ∀ {α : Type} (l : List (String × α)) (k : String),
    k ∉ l.map Prod.fst → alookup l k = none
  | _, [], _, _ => rfl
  | _, (k1, v1) :: rest, k, h => by
    have h1 : k1 ≠ k := fun he => h (by simp [he])
    simp only [alookup, if_neg h1]
    exact alookup_eq_none rest k (fun hm => h (List.mem_cons_of_mem _ hm))

theorem alookup_append {α : Type} (l1 l2 : List (String × α)) (k : String) :
    alookup (l1 ++ l2) k =
      match alookup l1 k with
      | some v => some v
      | none => alookup l2 k := by
  induction l1 with
  | nil => rfl
  | cons p rest ih =>
    obtain ⟨k1, v1⟩ := p
    by_cases h : k1 = k
    · simp [alookup, h]
    · simpa [alookup, h] using ih

/-- With no duplicate keys, each entry is what lookup finds for its key. -/
theorem alookup_self : ∀ (r : List (String × JVal)),
    (r.map Prod.fst).Nodup → ∀ p ∈ r, alookup r p.1 = some p.2
  | [], _, p, hp => absurd hp (List.not_mem_nil p)
  | (k, v) :: rest, hnd, p, hp => by
    rcases List.mem_cons.mp hp with rfl | hp
    · simp [alookup]
    · have hk : k ≠ p.1 := by
        intro he
        exact (List.nodup_cons.mp (by simpa using hnd)).1
          (he ▸ List.mem_map_of_mem Prod.fst hp)
      simp only [alookup, if_neg hk]
      exact alookup_self rest (List.nodup_cons.mp (by simpa using hnd)).2 p hp

/-! ### Reflexivity of Python `==` on well-formed values -/

theorem distinctKeys_nodup : ∀ ks : List String, distinctKeys ks = true → ks.Nodup
  | [] => by intro _; exact List.nodup_nil
  | k :: ks => by
    intro h
    rw [distinctKeys, Bool.and_eq_true] at h
    refine List.nodup_cons.mpr ⟨?_, distinctKeys_nodup ks h.2⟩
    intro hm
    have hc : ks.contains k = true := by
      simpa [List.elem_iff] using hm
    rw [hc] at h
    exact absurd h.1 (by decide)

theorem wfEntries_mem : ∀ l : List (String × JVal), wfEntries l = true →
    ∀ p ∈ l, wfJ p.2 = true
  | [], _, p, hp => absurd hp (List.not_mem_nil p)
  | (k, v) :: xs, h, p, hp => by
    rw [wfEntries, Bool.and_eq_true] at h
    rcases List.mem_cons.mp hp with rfl | hp
    · exact h.1
    · exact wfEntries_mem xs h.2 p hp

theorem keysSub_self (l : List (String × JVal))
    (h : ∀ p ∈ l, alookup l p.1 = some p.2) : keysSub l l = true := by
  unfold keysSub
  rw [List.all_eq_true]
  intro p hp
  rw [h p hp]
  rfl

mutual

/-- Python `==` is reflexive on values whose dicts have duplicate-free
keys (every value loadable from Python is of this shape). -/
theorem pyEq_refl : ∀ v : JVal, wfJ v = true → pyEq v v = true
  | .null, _ => rfl
  | .bool b, _ => by cases b <;> rfl
  | .num i, _ => by simp [pyEq]
  | .str s, _ => by simp [pyEq]
  | .opaq s, _ => by simp [pyEq]
  | .arr l, h => by
    show pyListEq l l = true
    exact pyListEq_refl l (by simpa [wfJ] using h)
  | .obj l, h => by
    have h2 : distinctKeys (l.map Prod.fst) = true ∧ wfEntries l = true := by
      simpa [wfJ, Bool.and_eq_true] using h
    have hnd : (l.map Prod.fst).Nodup := distinctKeys_nodup _ h2.1
    show (pyObjSub l l && keysSub l l) = true
    rw [Bool.and_eq_true]
    exact ⟨pyObjSub_self l l (fun p hp => alookup_self l hnd p hp)
        (fun p hp => wfEntries_mem l h2.2 p hp),
      keysSub_self l (fun p hp => alookup_self l hnd p hp)⟩
termination_by structural v => v

theorem pyListEq_refl : ∀ l : List JVal, wfList l = true → pyListEq l l = true
  | [], _ => rfl
  | v :: xs, h => by
    rw [wfList, Bool.and_eq_true] at h
    show (pyEq v v && pyListEq xs xs) = true
    rw [Bool.and_eq_true]
    exact ⟨pyEq_refl v h.1, pyListEq_refl xs h.2⟩
termination_by structural l => l

theorem pyObjSub_self : ∀ l full : List (String × JVal),
    (∀ p ∈ l, alookup full p.1 = some p.2) → (∀ p ∈ l, wfJ p.2 = true) →
    pyObjSub l full = true
  | [], _, _, _ => rfl
  | (k, v) :: xs, full, hl, hw => by
    show ((match alookup full k with
           | some w => pyEq v w
           | none => false) && pyObjSub xs full) = true
    rw [hl (k, v) (List.mem_cons_self _ _)]
    show (pyEq v v && pyObjSub xs full) = true
    rw [Bool.and_eq_true]
    exact ⟨pyEq_refl v (hw (k, v) (List.mem_cons_self _ _)),
      pyObjSub_self xs full (fun p hp => hl p (List.mem_cons_of_mem _ hp))
        (fun p hp => hw p (List.mem_cons_of_mem _ hp))⟩
termination_by structural l => l

end

/-- Cons unfolding of `alookup`. -/
theorem alookup_cons {α : Type} (k1 : String) (v1 : α) (rest : List (String × α)) (k : String) :
    alookup ((k1, v1) :: rest) k = if k1 = k then some v1 else alookup rest k := rfl

/-- The keys produced by a key-preserving `filterMap` come from the base
list. -/
theorem alookup_guard_not_mem {β : Type} (g : String → JVal → Option β) :
    ∀ (r : List (String × JVal)) (k : String), k ∉ r.map Prod.fst →
      alookup (r.filterMap fun p => (g p.1 p.2).map fun w => (p.1, w)) k = none
  | [], _, _ => rfl
  | (k1, v1) :: rest, k, h => by
    have hk : k1 ≠ k := fun he => h (by simp [he])
    have hrest : k ∉ rest.map Prod.fst := fun hm => h (List.mem_cons_of_mem _ hm)
    rw [List.filterMap_cons]
    cases g k1 v1 with
    | none => exact alookup_guard_not_mem g rest k hrest
    | some w =>
      rw [Option.map_some', alookup_cons, if_neg hk]
      exact alookup_guard_not_mem g rest k hrest

/-- Lookup through a key-preserving guarded `filterMap`, assuming no
duplicate keys: the guard is applied to the value lookup finds. -/
theorem alookup_guard {β : Type} (g : String → JVal → Option β) :
    ∀ (r : List (String × JVal)), (r.map Prod.fst).Nodup → ∀ k : String,
      alookup (r.filterMap fun p => (g p.1 p.2).map fun w => (p.1, w)) k =
        match alookup r k with
        | some v => g k v
        | none => none
  | [], _, _ => rfl
  | (k1, v1) :: rest, hnd, k => by
    have hnd2 : (k1 :: rest.map Prod.fst).Nodup := by simpa only [List.map_cons] using hnd
    obtain ⟨hk1, hndr⟩ := List.nodup_cons.mp hnd2
    rw [List.filterMap_cons]
    by_cases hk : k1 = k
    · subst hk
      rw [alookup_cons, if_pos rfl]
      cases hg : g k1 v1 with
      | none =>
        show alookup (rest.filterMap fun p => (g p.1 p.2).map fun w => (p.1, w)) k1 = g k1 v1
        rw [alookup_guard_not_mem g rest k1 hk1, hg]
      | some w =>
        rw [Option.map_some', alookup_cons, if_pos rfl]
        exact hg.symm
    · rw [alookup_cons, if_neg hk]
      cases hg : g k1 v1 with
      | none => exact alookup_guard g rest hndr k
      | some w =>
        rw [Option.map_some', alookup_cons, if_neg hk]
        exact alookup_guard g rest hndr k

/-- Guard of the first comparison loop. -/
def gBoth (r2 : List (String × JVal)) (k : String) (v : JVal) : Option (JVal × JVal) :=
  match alookup r2 k with
  | some v2 => if pyEq v v2 = true then none else some (v, v2)
  | none => none

/-- Guard of the second comparison loop. -/
def gOnly1 (r2 : List (String × JVal)) (k : String) (v : JVal) : Option (JVal × JVal) :=
  match alookup r2 k with
  | some _ => none
  | none => some (v, JVal.null)

/-- Guard of the third comparison loop. -/
def gOnly2 (r1 : List (String × JVal)) (k : String) (v : JVal) : Option (JVal × JVal) :=
  match alookup r1 k with
  | some _ => none
  | none => some (JVal.null, v)

/-- `diffBoth` as a guarded `filterMap`. -/
theorem diffBoth_eq_guard (r1 r2 : List (String × JVal)) :
    diffBoth r1 r2 = r1.filterMap fun p =>
      (gBoth r2 p.1 p.2).map fun w => (p.1, w) := by
  unfold diffBoth gBoth
  congr 1
  funext p
  dsimp only []
  cases alookup r2 p.1 with
  | none => rfl
  | some v2 =>
    by_cases hv : pyEq p.2 v2 = true
    · simp [hv]
    · simp [hv]

/-- `diffOnly1` as a guarded `filterMap`. -/
theorem diffOnly1_eq_guard (r1 r2 : List (String × JVal)) :
    diffOnly1 r1 r2 = r1.filterMap fun p =>
      (gOnly1 r2 p.1 p.2).map fun w => (p.1, w) := by
  unfold diffOnly1 gOnly1
  congr 1
  funext p
  dsimp only []
  cases alookup r2 p.1 with
  | none => rfl
  | some v2 => rfl

/-- `diffOnly2` as a guarded `filterMap`. -/
theorem diffOnly2_eq_guard (r1 r2 : List (String × JVal)) :
    diffOnly2 r1 r2 = r2.filterMap fun p =>
      (gOnly2 r1 p.1 p.2).map fun w => (p.1, w) := by
  unfold diffOnly2 gOnly2
  congr 1
  funext p
  dsimp only []
  cases alookup r1 p.1 with
  | none => rfl
  | some v2 => rfl

/-- Mapping-level characterization of the `differences` result of
`compare_diagnostics`: key in both with unequal values, key only in the
first (second slot `None`), key only in the second (first slot `None`), or
absent. -/
theorem compare_differences_lookup (d1 d2 : DiagRecord)
    (hnd1 : ((d1.result_blob.getD []).map Prod.fst).Nodup)
    (hnd2 : ((d2.result_blob.getD []).map Prod.fst).Nodup) (k : String) :
    alookup (compare_diagnostics d1 d2).differences k =
      match alookup (d1.result_blob.getD []) k, alookup (d2.result_blob.getD []) k with
      | some v1, some v2 => if pyEq v1 v2 = true then none else some (v1, v2)
      | some v1, none => some (v1, JVal.null)
      | none, some v2 => some (JVal.null, v2)
      | none, none => none := by
  show alookup (diffBoth (d1.result_blob.getD []) (d2.result_blob.getD []) ++
      diffOnly1 (d1.result_blob.getD []) (d2.result_blob.getD []) ++
      diffOnly2 (d1.result_blob.getD []) (d2.result_blob.getD [])) k = _
  rw [alookup_append, alookup_append, diffBoth_eq_guard, diffOnly1_eq_guard,
    diffOnly2_eq_guard,
    alookup_guard (gBoth (d2.result_blob.getD [])) _ hnd1 k,
    alookup_guard (gOnly1 (d2.result_blob.getD [])) _ hnd1 k,
    alookup_guard (gOnly2 (d1.result_blob.getD [])) _ hnd2 k]
  unfold gBoth gOnly1 gOnly2
  cases h1 : alookup (d1.result_blob.getD []) k with
  | none =>
    cases h2 : alookup (d2.result_blob.getD []) k with
    | none => rfl
    | some v2 => rfl
  | some v1 =>
    cases h2 : alookup (d2.result_blob.getD []) k with
    | none => rfl
    | some v2 =>
      by_cases hv : pyEq v1 v2 = true
      · simp [hv]
      · simp [hv]

/-- A record compared with itself yields no differences: each common value
compares Python-equal to itself (reflexivity on well-formed values). -/
theorem compare_self_differences (d : DiagRecord)
    (hwf : wfJ (.obj (d.result_blob.getD [])) = true) :
    (compare_diagnostics d d).differences = [] := by
  have h2 : distinctKeys ((d.result_blob.getD []).map Prod.fst) = true ∧
      wfEntries (d.result_blob.getD []) = true := by
    simpa [wfJ, Bool.and_eq_true] using hwf
  have hnd : ((d.result_blob.getD []).map Prod.fst).Nodup := distinctKeys_nodup _ h2.1
  show diffBoth (d.result_blob.getD []) (d.result_blob.getD []) ++
    diffOnly1 (d.result_blob.getD []) (d.result_blob.getD []) ++
    diffOnly2 (d.result_blob.getD []) (d.result_blob.getD []) = []
  have h1 : diffBoth (d.result_blob.getD []) (d.result_blob.getD []) = [] := by
    refine List.filterMap_eq_nil.mpr fun p hp => ?_
    rw [alookup_self _ hnd p hp]
    simp [pyEq_refl p.2 (wfEntries_mem _ h2.2 p hp)]
  have h4 : diffOnly1 (d.result_blob.getD []) (d.result_blob.getD []) = [] := by
    refine List.filterMap_eq_nil.mpr fun p hp => ?_
    rw [alookup_self _ hnd p hp]
  have h5 : diffOnly2 (d.result_blob.getD []) (d.result_blob.getD []) = [] := by
    refine List.filterMap_eq_nil.mpr fun p hp => ?_
    rw [alookup_self _ hnd p hp]
  rw [h1, h4, h5]
  rfl

/-! ### Classification lemmas -/

/-- Membership characterization of the extractors: a tag is returned exactly
when some table pattern matching the normalized text carries it. -/
theorem mem_extractMatches (table : List (RE × String)) (text : String) (tag : String) :
    tag ∈ extractMatches table text ↔
      ∃ p, p ∈ table ∧ reSearch p.1 (normalize_text text) = true ∧ p.2 = tag := by
  simp only [extractMatches, List.mem_map, List.mem_filter]
  constructor
  · rintro ⟨p, ⟨hp, hs⟩, rfl⟩
    exact ⟨p, hp, hs, rfl⟩
  · rintro ⟨p, hp, hs, rfl⟩
    exact ⟨p, ⟨hp, hs⟩, rfl⟩

/-- Unmatched text yields the empty list. -/
theorem extractMatches_eq_nil (table : List (RE × String)) (text : String)
    (h : ∀ p ∈ table, reSearch p.1 (normalize_text text) = false) :
    extractMatches table text = [] := by
  unfold extractMatches
  rw [List.filter_eq_nil.mpr fun p hp => by simp [h p hp]]
  rfl

/-- `normalize_text` depends only on the lower-cased form of the input. -/
theorem normalize_text_lower_congr {t t2 : String} (h : pyLower t = pyLower t2) :
    normalize_text t = normalize_text t2 := by
  have hdata : t.data.map lowerChar = t2.data.map lowerChar := by
    have := congrArg String.data h
    simpa [pyLower] using this
  by_cases he : t = ""
  · subst he
    have h2 : t2.data = [] := by
      have : t2.data.map lowerChar = [] := by simpa using hdata.symm
      simpa using this
    have : t2 = "" := string_data_inj (by simpa using h2)
    rw [this]
  · have he2 : t2 ≠ "" := by
      intro h2
      subst h2
      have : t.data.map lowerChar = [] := by simpa using hdata
      exact he (string_data_inj (by simpa using this))
    unfold normalize_text
    rw [if_neg he, if_neg he2, h]

/-- Classification depends only on the lower-cased input text. -/
theorem extractMatches_lower_congr (table : List (RE × String)) {t t2 : String}
    (h : pyLower t = pyLower t2) :
    extractMatches table t = extractMatches table t2 := by
  unfold extractMatches
  rw [normalize_text_lower_congr h]

/-- Generic congruence for `flatMap`. -/
theorem flatMap_congr {α β : Type} {l : List α} {f g : α → List β}
    (h : ∀ a ∈ l, f a = g a) : l.flatMap f = l.flatMap g := by
  induction l with
  | nil => rfl
  | cons a as ih =>
    simp only [List.flatMap_cons]
    rw [h a (List.mem_cons_self a as), ih fun b hb => h b (List.mem_cons_of_mem _ hb)]

/-! ### Claim theorems -/

/-- Claim C3: for every sequence of annotations, the aggregate increments
`cause_counts[c]` once per occurrence of tag `c` in each annotation's cause
classification, increments `cause_fix_pairs[c][f]` once for every pair in the
Cartesian product of the annotation's matched cause and fix tags (an
annotation with `m` cause tags and `n` fix tags contributes `m * n` pair
increments), and sets `total_incidents` to the number of input annotations
regardless of whether any pattern matched. -/
theorem aggregate_counts_spec (anns : List AnnRecord) :
    (∀ c, counterGet (analyze_runbook_annotations anns).cause_counts c =
      (anns.map fun a => (extract_canonical_causes (a.cause.getD "")).count c).sum) ∧
    (∀ f, counterGet (analyze_runbook_annotations anns).fix_counts f =
      (anns.map fun a => (extract_canonical_fixes (a.fix.getD "")).count f).sum) ∧
    (∀ c f, pairsGet (analyze_runbook_annotations anns).cause_fix_pairs c f =
      (anns.map fun a => (extract_canonical_causes (a.cause.getD "")).count c *
        (extract_canonical_fixes (a.fix.getD "")).count f).sum) ∧
    (analyze_runbook_annotations anns).total_incidents = anns.length := by
  have h := analyze_spec anns
  simpa only [annCauses, annFixes] using h

/-- Claim C4: `classify` tests every pattern of the vocabulary's ordered
pattern table against the normalized text and returns the tag of every
pattern that matches, not just the first; in particular the text
`"High CPU usage due to memory leak"` yields both `high_cpu_usage` and
`memory_leak` among the causes, and `"Increase pod memory limits"` yields
`increase_resource_limits` among the fixes. -/
theorem classify_all_patterns :
    (∀ t tag, tag ∈ extract_canonical_causes t ↔
      ∃ p, p ∈ causesPatterns ∧ reSearch p.1 (normalize_text t) = true ∧ p.2 = tag) ∧
    (∀ t tag, tag ∈ extract_canonical_fixes t ↔
      ∃ p, p ∈ fixesPatterns ∧ reSearch p.1 (normalize_text t) = true ∧ p.2 = tag) ∧
    "high_cpu_usage" ∈ extract_canonical_causes "High CPU usage due to memory leak" ∧
    "memory_leak" ∈ extract_canonical_causes "High CPU usage due to memory leak" ∧
    "increase_resource_limits" ∈ extract_canonical_fixes "Increase pod memory limits" :=
  ⟨fun t tag => mem_extractMatches causesPatterns t tag,
   fun t tag => mem_extractMatches fixesPatterns t tag,
   by decide, by decide, by decide⟩

/-- Claim C7: the aggregate is invariant under permutation of the input
annotation sequence — permuted inputs yield identical `cause_counts`,
`fix_counts`, `cause_fix_pairs` and `total_incidents` (as mappings, which is
what Python dict equality compares). -/
theorem aggregate_perm_invariant (l l2 : List AnnRecord) (hp : l.Perm l2) :
    (∀ c, counterGet (analyze_runbook_annotations l).cause_counts c =
      counterGet (analyze_runbook_annotations l2).cause_counts c) ∧
    (∀ f, counterGet (analyze_runbook_annotations l).fix_counts f =
      counterGet (analyze_runbook_annotations l2).fix_counts f) ∧
    (∀ c f, pairsGet (analyze_runbook_annotations l).cause_fix_pairs c f =
      pairsGet (analyze_runbook_annotations l2).cause_fix_pairs c f) ∧
    (analyze_runbook_annotations l).total_incidents =
      (analyze_runbook_annotations l2).total_incidents := by
  obtain ⟨hc, hf, hcf, ht⟩ := analyze_spec l
  obtain ⟨hc2, hf2, hcf2, ht2⟩ := analyze_spec l2
  refine ⟨fun c => ?_, fun f => ?_, fun c f => ?_, ?_⟩
  · rw [hc, hc2]; exact (hp.map _).sum_eq
  · rw [hf, hf2]; exact (hp.map _).sum_eq
  · rw [hcf, hcf2]; exact (hp.map _).sum_eq
  · rw [ht, ht2]; exact hp.length_eq

/-- Witness for C7 at a concrete two-element swap. -/
theorem aggregate_perm_invariant_witness :
    counterGet (analyze_runbook_annotations
      [⟨some "memory leak", some "restarted the pod"⟩, ⟨some "oomkilled", none⟩]).cause_counts
      "memory_leak" =
    counterGet (analyze_runbook_annotations
      [⟨some "oomkilled", none⟩, ⟨some "memory leak", some "restarted the pod"⟩]).cause_counts
      "memory_leak" := by
  have h := aggregate_perm_invariant
    [⟨some "memory leak", some "restarted the pod"⟩, ⟨some "oomkilled", none⟩]
    [⟨some "oomkilled", none⟩, ⟨some "memory leak", some "restarted the pod"⟩]
    (List.Perm.swap _ _ _)
  exact h.1 "memory_leak"

/-- Claim C9: classification of the empty string is the empty set,
classification of text matching no pattern is the empty set (neither is an
error), and the input is lower-cased before matching, so classification
depends only on the lower-cased input (case-insensitivity). -/
theorem classify_empty_and_unmatched :
    (extract_canonical_causes "" = [] ∧ extract_canonical_fixes "" = []) ∧
    (∀ t, (∀ p ∈ causesPatterns, reSearch p.1 (normalize_text t) = false) →
      extract_canonical_causes t = []) ∧
    (∀ t, (∀ p ∈ fixesPatterns, reSearch p.1 (normalize_text t) = false) →
      extract_canonical_fixes t = []) ∧
    (∀ t t2 : String, pyLower t = pyLower t2 →
      extract_canonical_causes t = extract_canonical_causes t2 ∧
      extract_canonical_fixes t = extract_canonical_fixes t2) :=
  ⟨⟨by decide, by decide⟩,
   fun _ h => extractMatches_eq_nil _ _ h,
   fun _ h => extractMatches_eq_nil _ _ h,
   fun _ _ h => ⟨extractMatches_lower_congr _ h, extractMatches_lower_congr _ h⟩⟩

/-- Witness for C9: a concrete unmatched text yields `[]`, and a concrete
case change does not affect classification. -/
theorem classify_empty_and_unmatched_witness :
    extract_canonical_causes "nothing suspicious happened" = [] ∧
    extract_canonical_causes "MEMORY Leak" = extract_canonical_causes "memory leak" := by
  have h := classify_empty_and_unmatched
  exact ⟨h.2.1 _ (by decide), (h.2.2.2 "MEMORY Leak" "memory leak" (by decide)).1⟩

/-- Claim C1 (amended): `find_by_hash` returns at most `N` records when
`N ≥ 1`; every returned record's `result_hash` equals the target; the result
is a sublist of the input (relative order preserved); and the result is the
empty sequence when no record matches.  For `N ≤ 0` the loop's post-append
bound check still admits the first match: the result is then exactly the
first matching record as a singleton when any record matches (which is what
falsifies the unrestricted "at most N" claim), and empty otherwise. -/
theorem find_by_hash_bounded_corrected (records : List DiagRecord) (target : String)
    (n : Int) :
    (1 ≤ n → ((find_similar_diagnostics records target n).length : Int) ≤ n) ∧
    (n ≤ 0 → find_similar_diagnostics records target n =
      match records.find? (fun d => d.result_hash = some target) with
      | some d => [d]
      | none => []) ∧
    (∀ d ∈ find_similar_diagnostics records target n, d.result_hash = some target) ∧
    (find_similar_diagnostics records target n).Sublist records ∧
    ((∀ d ∈ records, d.result_hash ≠ some target) →
      find_similar_diagnostics records target n = []) := by
  obtain ⟨r, hr, hs, hh⟩ := findSimilarAux_decomp target n records []
  have hre : find_similar_diagnostics records target n = r := by
    simpa [find_similar_diagnostics] using hr
  refine ⟨fun h1 => ?_, fun h0 => ?_, ?_, ?_, fun hnone => ?_⟩
  · exact findSimilarAux_length_le target n records [] (by simpa using h1)
  · exact findSimilarAux_nonpos_eq target n h0 records
  · rw [hre]; exact hh
  · rw [hre]; exact hs
  · rw [hre]
    cases r with
    | nil => rfl
    | cons d ds =>
      exact absurd (hh d (List.mem_cons_self d ds))
        (hnone d (hs.subset (List.mem_cons_self d ds)))

/-- Counterexample for C1 as frozen: with `max_results = 0` and one matching
record, `find_by_hash` returns one record, not at most zero — the length
check runs only after a match is appended. -/
theorem find_by_hash_zero_counterexample :
    find_similar_diagnostics [⟨none, none, none, some "h", none⟩] "h" 0 =
      [⟨none, none, none, some "h", none⟩] ∧
    ¬ (find_similar_diagnostics [⟨none, none, none, some "h", none⟩] "h" 0).length ≤ 0 := by
  exact ⟨by decide, by decide⟩

/-- Witness for C1 at concrete inputs: the bound holds at `N = 1` with two
matching records, a no-match scan returns `[]`, and at `N = 0` the scan
returns exactly the first of two matching records. -/
theorem find_by_hash_bounded_witness :
    ((find_similar_diagnostics [⟨none, none, none, some "h", none⟩,
        ⟨none, none, none, some "h", none⟩] "h" 1).length : Int) ≤ 1 ∧
    find_similar_diagnostics [⟨none, none, none, some "g", none⟩] "h" 5 = [] ∧
    find_similar_diagnostics [⟨none, some "first", none, some "h", none⟩,
        ⟨none, some "second", none, some "h", none⟩] "h" 0 =
      [⟨none, some "first", none, some "h", none⟩] := by
  have h1 := find_by_hash_bounded_corrected [⟨none, none, none, some "h", none⟩,
    ⟨none, none, none, some "h", none⟩] "h" 1
  have h2 := find_by_hash_bounded_corrected [⟨none, none, none, some "g", none⟩] "h" 5
  have h3 := find_by_hash_bounded_corrected [⟨none, some "first", none, some "h", none⟩,
    ⟨none, some "second", none, some "h", none⟩] "h" 0
  exact ⟨h1.1 (by decide), h2.2.2.2.2 (by decide), (h3.2.1 (by decide)).trans (by decide)⟩

/-- Claim C5: `hash` always returns a 64-character lowercase-hex digest;
structurally identical payloads (same keys and values regardless of dict key
insertion order, at every nesting depth — i.e. equal recursive
canonicalizations, and in particular permuted dicts without duplicate keys)
produce equal digests; repeated calls on an equal structure trivially agree
since the hasher is a pure function. -/
theorem hash_shape_and_key_order_invariance :
    (∀ blob : JVal, (generate_result_hash blob).length = 64 ∧
      ∀ c ∈ (generate_result_hash blob).data, c ∈ hexDigits) ∧
    (∀ a b : JVal, canon a = canon b →
      generate_result_hash a = generate_result_hash b) ∧
    (∀ l l2 : List (String × JVal), l.Perm l2 → (l.map Prod.fst).Nodup →
      generate_result_hash (.obj l) = generate_result_hash (.obj l2)) :=
  ⟨generate_result_hash_shape,
   fun _ _ h => hash_canon_eq h,
   fun l l2 hp hnd => hash_canon_eq (canon_obj_perm l l2 hp hnd)⟩

/-- Witness for C5 at the spec's own example `{"a":1,"b":2}` vs
`{"b":2,"a":1}`. -/
theorem hash_shape_and_key_order_invariance_witness :
    generate_result_hash (.obj [("a", .num 1), ("b", .num 2)]) =
      generate_result_hash (.obj [("b", .num 2), ("a", .num 1)]) ∧
    (generate_result_hash (.obj [("a", .num 1), ("b", .num 2)])).length = 64 := by
  have h := hash_shape_and_key_order_invariance
  exact ⟨h.2.2 [("a", .num 1), ("b", .num 2)] [("b", .num 2), ("a", .num 1)]
    (List.Perm.swap _ _ _) (by decide), (h.1 _).1⟩

/-- Claim C2 (amended): the hasher never raises — there is no
`SerializationError` anywhere in the code.  `json.dumps` is called with
`default=str`, so a value with no native JSON form is serialized as its
`str()` representation exactly as a string would be, and every payload
hashes to a 64-character lowercase-hex digest. -/
theorem hasher_default_str_total_amended :
    (∀ blob : JVal, (generate_result_hash blob).length = 64 ∧
      ∀ c ∈ (generate_result_hash blob).data, c ∈ hexDigits) ∧
    (∀ s : String, json_dumps (.opaq s) = json_dumps (.str s)) :=
  ⟨generate_result_hash_shape, fun _ => rfl⟩

/-- Counterexample for C2 as frozen: a payload holding a non-JSON value
(a Python set, whose `str()` form is `"\x7b1, 2, 3\x7d"`) is serialized by
string coercion and hashed to a 64-character digest — no error is raised. -/
theorem hasher_serialization_error_counterexample :
    json_dumps (.obj [("x", .opaq "\x7b1, 2, 3\x7d")]) =
      "\x7b\"x\": \"\x7b1, 2, 3\x7d\"\x7d" ∧
    (generate_result_hash (.obj [("x", .opaq "\x7b1, 2, 3\x7d")])).length = 64 :=
  ⟨by decide, (generate_result_hash_shape _).1⟩

/-- Keys of a well-formed dict are duplicate-free. -/
theorem wfJ_obj_nodup {l : List (String × JVal)} (h : wfJ (.obj l) = true) :
    (l.map Prod.fst).Nodup :=
  distinctKeys_nodup _ (And.left (by simpa [wfJ, Bool.and_eq_true] using h))

/-- Claim C6: `diff(a, b).differences` contains exactly the top-level keys
present in both blobs with values unequal under Python `==` (both sides
populated), the keys only in `a` (`value2 = None`), and the keys only in `b`
(`value1 = None`); keys in both with `==`-equal values are omitted, and
`diff(a, a)` yields an empty differences mapping.  (Blobs are well-formed:
dict keys are duplicate-free at every depth, as Python dicts guarantee.) -/
theorem diff_differences_exact (d1 d2 : DiagRecord)
    (hw1 : wfJ (.obj (d1.result_blob.getD [])) = true)
    (hw2 : wfJ (.obj (d2.result_blob.getD [])) = true) :
    (∀ k, alookup (compare_diagnostics d1 d2).differences k =
      match alookup (d1.result_blob.getD []) k, alookup (d2.result_blob.getD []) k with
      | some v1, some v2 => if pyEq v1 v2 = true then none else some (v1, v2)
      | some v1, none => some (v1, JVal.null)
      | none, some v2 => some (JVal.null, v2)
      | none, none => none) ∧
    (compare_diagnostics d1 d1).differences = [] :=
  ⟨compare_differences_lookup d1 d2 (wfJ_obj_nodup hw1) (wfJ_obj_nodup hw2),
   compare_self_differences d1 hw1⟩

/-- Witness for C6 at the spec's example `a = {"x":1}`, `b = {"x":2,"y":3}`,
plus a nested-dict pair differing only in key order, which Python `==`
equates and the diff therefore omits. -/
theorem diff_differences_exact_witness :
    alookup (compare_diagnostics
      ⟨none, none, none, none, some [("x", .num 1)]⟩
      ⟨none, none, none, none, some [("x", .num 2), ("y", .num 3)]⟩).differences "x" =
      some (JVal.num 1, JVal.num 2) ∧
    (compare_diagnostics ⟨none, none, none, none, some [("x", .num 1)]⟩
      ⟨none, none, none, none, some [("x", .num 1)]⟩).differences = [] ∧
    alookup (compare_diagnostics
      ⟨none, none, none, none, some [("m", .obj [("p", .num 1), ("q", .num 2)])]⟩
      ⟨none, none, none, none,
        some [("m", .obj [("q", .num 2), ("p", .num 1)])]⟩).differences "m" = none := by
  have h := diff_differences_exact
    ⟨none, none, none, none, some [("x", .num 1)]⟩
    ⟨none, none, none, none, some [("x", .num 2), ("y", .num 3)]⟩
    (by decide) (by decide)
  have h2 := diff_differences_exact
    ⟨none, none, none, none, some [("m", .obj [("p", .num 1), ("q", .num 2)])]⟩
    ⟨none, none, none, none, some [("m", .obj [("q", .num 2), ("p", .num 1)])]⟩
    (by decide) (by decide)
  exact ⟨(h.1 "x").trans (by decide), h.2, (h2.1 "m").trans (by decide)⟩

/-- Claim C10: a top-level key present only in `a`'s blob with value `null`
appears in the differences with both slots `null` — `{value1: None,
value2: None}` — so the output cannot distinguish a key absent from one side
from a key present with a null value. -/
theorem diff_null_value_conflation (d1 d2 : DiagRecord)
    (hnd1 : ((d1.result_blob.getD []).map Prod.fst).Nodup)
    (hnd2 : ((d2.result_blob.getD []).map Prod.fst).Nodup) (k : String)
    (h1 : alookup (d1.result_blob.getD []) k = some JVal.null)
    (h2 : alookup (d2.result_blob.getD []) k = none) :
    alookup (compare_diagnostics d1 d2).differences k =
      some (JVal.null, JVal.null) := by
  rw [compare_differences_lookup d1 d2 hnd1 hnd2 k, h1, h2]

/-- Witness for C10: `a = {"x": null}`, `b = {"y": 1}` puts
`"x" ↦ (null, null)` in the differences. -/
theorem diff_null_value_conflation_witness :
    alookup (compare_diagnostics
      ⟨none, none, none, none, some [("x", .null)]⟩
      ⟨none, none, none, none, some [("y", .num 1)]⟩).differences "x" =
      some (JVal.null, JVal.null) :=
  diff_null_value_conflation
    ⟨none, none, none, none, some [("x", .null)]⟩
    ⟨none, none, none, none, some [("y", .num 1)]⟩
    (by decide) (by decide) "x" (by decide) (by decide)

/-- Claim C8: for `min_frequency ≤ 0` the generator succeeds and emits
exactly what it emits for `min_frequency = 1` — every stored count is at
least 1, and the generator only compares counts against the threshold. -/
theorem suggest_nonpositive_min_frequency (anns : List AnnRecord) (mf : Int)
    (hmf : mf ≤ 0) :
    suggest_runbook_updates anns mf = suggest_runbook_updates anns 1 := by
  obtain ⟨hcpos, hfpos, hppos⟩ := analyze_pos anns
  unfold suggest_runbook_updates
  dsimp only []
  have hfix : ((analyze_runbook_annotations anns).fix_counts.filter
        fun p => mf ≤ (p.2 : Int)) =
      (analyze_runbook_annotations anns).fix_counts.filter
        fun p => (1 : Int) ≤ (p.2 : Int) :=
    List.filter_congr fun p hp => by
      have h1 := hfpos p hp
      rw [decide_eq_decide]
      omega
  have hcause : ((analyze_runbook_annotations anns).cause_counts.filter
        fun p => mf ≤ (p.2 : Int)) =
      (analyze_runbook_annotations anns).cause_counts.filter
        fun p => (1 : Int) ≤ (p.2 : Int) :=
    List.filter_congr fun p hp => by
      have h1 := hcpos p hp
      rw [decide_eq_decide]
      omega
  have hpairs : ((analyze_runbook_annotations anns).cause_fix_pairs.flatMap
        fun q => (q.2.filter fun p => mf ≤ (p.2 : Int)).map (mkRelationship q.1)) =
      (analyze_runbook_annotations anns).cause_fix_pairs.flatMap
        fun q => (q.2.filter fun p => (1 : Int) ≤ (p.2 : Int)).map (mkRelationship q.1) :=
    flatMap_congr fun q hq => by
      congr 1
      exact List.filter_congr fun p hp => by
        have h1 := hppos q hq p hp
        rw [decide_eq_decide]
        omega
  rw [hfix, hcause, hpairs]

/-- Witness for C8: at a concrete annotation list, `min_frequency = -3`
emits the same suggestions as `min_frequency = 1`. -/
theorem suggest_nonpositive_min_frequency_witness :
    suggest_runbook_updates [⟨some "memory leak", some "restarted the pod"⟩] (-3) =
      suggest_runbook_updates [⟨some "memory leak", some "restarted the pod"⟩] 1 :=
  suggest_nonpositive_min_frequency [⟨some "memory leak", some "restarted the pod"⟩]
    (-3) (by decide)
